import Mathlib

/-!
A verification development for the OpenStrength multi-source harvesting
pipeline (`src/openstrength/ingest/`).  The Python source is shallowly
embedded: pure string/decision logic becomes Lean functions over `List Char`
and `String`; filesystem effects become explicit state passing over an
abstract file map; HTTP traffic becomes scripted response sequences.
Machine text is ASCII throughout the relevant code paths, so Python
`str.lower()` / `str.strip()` are embedded as ASCII maps.
-/

namespace OpenStrength

/-! ## Python-style character and string primitives -/

/-- ASCII lower-casing of one character, as Python `str.lower` acts on the
ASCII range used by the harvesters. -/
def lowChar (c : Char) : Char :=
  if 'A' ≤ c ∧ c ≤ 'Z' then Char.ofNat (c.toNat + 32) else c

/-- Python `str.lower` over an ASCII character list. -/
def pyLower (s : List Char) : List Char := s.map lowChar

/-- Python whitespace class (`\s`, and the set `str.strip` removes). -/
def pyIsSpace (c : Char) : Bool :=
  c = ' ' || c = '\t' || c = '\n' || c = '\r' || c = '\x0b' || c = '\x0c'

/-- Python `str.strip()`: drop leading and trailing whitespace. -/
def pyStrip (s : List Char) : List Char :=
  ((s.dropWhile pyIsSpace).reverse.dropWhile pyIsSpace).reverse

/-- Python `strip().lower()` applied to a Lean `String`, yielding the character list
the pattern matchers scan. -/
def pyNormText (s : String) : List Char := pyLower (pyStrip s.data)

/-- Does the predicate hold on some suffix of the list?  This is the search
part of Python `re.search` / substring `in`. -/
def sufAny (p : List Char → Bool) : List Char → Bool
  | [] => p []
  | c :: cs => p (c :: cs) || sufAny p cs

/-- Python substring test `needle in hay` over character lists. -/
def containsSub (needle : List Char) (hay : List Char) : Bool :=
  sufAny (fun l => needle.isPrefixOf l) hay

/-- Python `hay.endswith(suffix)` over character lists. -/
def endsWithL (suffix l : List Char) : Bool :=
  suffix.reverse.isPrefixOf l.reverse

/-- Python falsy-`or` chain over optional strings: the first value that is
present and non-empty, else `""`. -/
def firstNonempty : List (Option String) → String
  | [] => ""
  | x :: xs =>
    match x with
    | some s => if s = "" then firstNonempty xs else s
    | none => firstNonempty xs

/-- Python `sep.join(xs)` for strings. -/
def joinSep (sep : String) : List String → String
  | [] => ""
  | [x] => x
  | x :: y :: xs => x ++ sep ++ joinSep sep (y :: xs)

/-! ## OAI-PMH license logic (`oai_pmh.py`)

`LICENSE_PATTERNS` is a list of regexes tried in order.  The first pattern
`cc[-\s]?by[-\s]?(\d\.\d)?` has an optional tail, so `re.search` succeeds
exactly when the text contains `cc`, an optional single `-`/whitespace
separator, then `by`; the second pattern likewise reduces to
`cc (sep?) by (sep?) sa`, the fourth's first alternative to
`public (\s*) domain`.  The embeddings below implement those reduced
search problems directly. -/

/-- One optional `[-\s]` separator character. -/
def pySep (c : Char) : Bool := c = '-' || pyIsSpace c

/-- Continuation of pattern 1 after `cc`: optional separator then `by`. -/
def byHead : List Char → Bool
  | 'b' :: 'y' :: _ => true
  | c :: 'b' :: 'y' :: _ => pySep c
  | _ => false

/-- Does pattern `cc[-\s]?by[-\s]?(\d\.\d)?` match at the head of the list? -/
def ccByAt : List Char → Bool
  | 'c' :: 'c' :: rest => byHead rest
  | _ => false

/-- Continuation after `by`: optional separator then `sa`. -/
def saHead : List Char → Bool
  | 's' :: 'a' :: _ => true
  | c :: 's' :: 'a' :: _ => pySep c
  | _ => false

/-- Continuation of pattern 2 after `cc`: optional separator, `by`,
optional separator, `sa`. -/
def bySaHead : List Char → Bool
  | 'b' :: 'y' :: rest => saHead rest
  | c :: 'b' :: 'y' :: rest => pySep c && saHead rest
  | _ => false

/-- Does pattern `cc[-\s]?by[-\s]?sa[-\s]?(\d\.\d)?` match at the head? -/
def ccBySaAt : List Char → Bool
  | 'c' :: 'c' :: rest => bySaHead rest
  | _ => false

/-- Strip a literal from the head of a list, or fail. -/
def dropLit : List Char → List Char → Option (List Char)
  | [], l => some l
  | _ :: _, [] => none
  | c :: cs, d :: ds => if c = d then dropLit cs ds else none

/-- Does `public\s*domain` match at the head of the list? -/
def pubDomAt (l : List Char) : Bool :=
  match dropLit "public".data l with
  | some rest => ("domain".data).isPrefixOf (rest.dropWhile pyIsSpace)
  | none => false

/-- Python `norm_license` of `oai_pmh.py`: try `LICENSE_PATTERNS` in order, then the
three `creativecommons.org` URL substring tests.  Empty (falsy) input maps to
`none`. -/
def norm_license (text : String) : Option String :=
  if text = "" then none
  else
    let t := pyNormText text
    if sufAny ccByAt t then some "cc-by"
    else if sufAny ccBySaAt t then some "cc-by-sa"
    else if containsSub "cc0".data t || containsSub "publicdomainzero".data t
        || containsSub "pdm".data t then some "cc0"
    else if sufAny pubDomAt t || containsSub "us-gov".data t
        || containsSub "pd".data t then some "public-domain"
    else if containsSub "creativecommons.org/licenses/by".data t then some "cc-by"
    else if containsSub "creativecommons.org/licenses/by-sa".data t then some "cc-by-sa"
    else if containsSub "creativecommons.org/publicdomain/zero".data t then some "cc0"
    else none

/-- Python `is_license_allowed` of `oai_pmh.py`: with both lists absent everything is
allowed; with a combined (lower-cased) allow set empty everything is allowed;
otherwise some rights text must normalize to a tag in the allow set. -/
def is_license_allowed (dc_rights_texts : List String)
    (whitelist : Option (List String)) (global_allow : Option (List String)) : Bool :=
  if whitelist.isNone && global_allow.isNone then true
  else
    let allow := (whitelist.getD []).map (fun x => String.mk (pyLower x.data))
      ++ (global_allow.getD []).map (fun x => String.mk (pyLower x.data))
    if allow.isEmpty then true
    else dc_rights_texts.any fun t =>
      match norm_license t with
      | some tag => allow.contains tag
      | none => false

/-! ## DOAJ license logic (`doaj.py`) -/

/-- Python `norm` of `doaj.py`: `(s or "").strip().lower()`. -/
def doajNorm (s : Option String) : String :=
  String.mk (pyLower (pyStrip (s.getD "").data))

/-- One entry of `bibjson['license']`: a JSON object with optional `type`
and `url` fields. -/
structure DoajLicEntry where
  ltype : Option String
  url : Option String
deriving DecidableEq

/-- The shape of the `bibjson['license']` value as `article_license` inspects
it with `isinstance`. -/
inductive DoajLicField where
  | absent
  | listF (es : List DoajLicEntry)
  | dictF (e : DoajLicEntry)
  | otherF
deriving DecidableEq

/-- The URL fallbacks of `article_license`, in their `if` order. -/
def doajUrlTag (url : String) : Option String :=
  let u := url.data
  if containsSub "creativecommons.org/licenses/by/".data u then some "cc-by"
  else if containsSub "creativecommons.org/publicdomain/zero".data u then some "cc0"
  else if containsSub "creativecommons.org/licenses/by-sa/".data u then some "cc-by-sa"
  else none

/-- Python `article_license` of `doaj.py`: on a non-empty license list, the first
entry with a non-empty normalized `type` wins; failing that, the first entry
whose URL matches a Creative Commons pattern; a dict yields its own `type`;
anything else yields `none`. -/
def article_license : DoajLicField → Option String
  | .listF es =>
    if es.isEmpty then none
    else
      match es.find? (fun e => !(doajNorm e.ltype = "")) with
      | some e => some (doajNorm e.ltype)
      | none => es.findSome? (fun e => doajUrlTag (doajNorm e.url))
  | .dictF e => if doajNorm e.ltype = "" then none else some (doajNorm e.ltype)
  | _ => none

/-- Python `lic.replace("_", "-")`. -/
def underToDash (s : String) : String :=
  String.mk (s.data.map fun c => if c = '_' then '-' else c)

/-- Python `allowed_by_license` of `doaj.py`: empty whitelist allows everything,
otherwise the single extracted license (or its `_`→`-` variant) must be in
the normalized whitelist. -/
def doajAllowed (bj : DoajLicField) (whitelist : List String) : Bool :=
  if whitelist.isEmpty then true
  else
    let lic := (article_license bj).getD ""
    let wl := whitelist.map fun x => doajNorm (some x)
    wl.contains lic || wl.contains (underToDash lic)

/-! ## Zenodo and Figshare license logic (`zenodo.py`, `figshare.py`) -/

/-- The shape of `rec['metadata']['license']` in a Zenodo record. -/
inductive ZenodoLicField where
  | dictF (id identifier : Option String)
  | strF (s : String)
  | absent
  | otherF
deriving DecidableEq

/-- Python `norm_license` of `zenodo.py`: `metadata.license.id` (or `identifier`)
when a dict, the string itself when a string; stripped, lower-cased, with
empty mapped to `None`. -/
def zenodoNormLicense : ZenodoLicField → Option String
  | .dictF id identifier =>
    let lid := firstNonempty [id, identifier]
    let v := String.mk (pyLower (pyStrip lid.data))
    if v = "" then none else some v
  | .strF s =>
    let v := String.mk (pyLower (pyStrip s.data))
    if v = "" then none else some v
  | _ => none

/-- Python `allowed_by_license` of `zenodo.py`. -/
def zenodoAllowed (lic : ZenodoLicField) (whitelist : List String) : Bool :=
  if whitelist.isEmpty then true
  else
    let l := String.mk (pyLower ((zenodoNormLicense lic).getD "").data)
    let wl := whitelist.map fun x => String.mk (pyLower x.data)
    wl.contains l || wl.contains (underToDash l)

/-- The shape of `article['license']` in a Figshare record. -/
inductive FigshareLicField where
  | dictF (value : Option String)
  | strF (s : String)
  | absent
  | otherF
deriving DecidableEq

/-- Python `norm_license` of `figshare.py`: `license.value` lower-cased when a dict
(possibly empty), the lower-cased string when a string, else `None`. -/
def figshareNormLicense : FigshareLicField → Option String
  | .dictF value => some (String.mk (pyLower (value.getD "").data))
  | .strF s => some (String.mk (pyLower s.data))
  | _ => none

/-- Python `allowed_by_license` of `figshare.py`. -/
def figshareAllowed (lic : FigshareLicField) (whitelist : List String) : Bool :=
  if whitelist.isEmpty then true
  else
    let l := (figshareNormLicense lic).getD ""
    let wl := whitelist.map fun x => String.mk (pyLower x.data)
    wl.contains l || wl.contains (underToDash l)

/-! ## PMC license gate (`pmc.py`)

`parse_license_from_xml` runs over BeautifulSoup XML and is embedded only
through its result, the optional normalized tag handed to the keep/skip
decision of `harvest_pmc` (lines 342-352). -/

/-- The keep/skip decision of `harvest_pmc`: keep when the normalized tag is
present and whitelisted, or when it is absent and
`permit_unlicensed_readonly` is set. -/
def pmcKeep (normTag : Option String) (allowed_licenses : List String)
    (permit_unlicensed_readonly : Bool) : Bool :=
  match normTag with
  | some t => allowed_licenses.contains t
  | none => permit_unlicensed_readonly

/-! ## bioRxiv license gate (`biorxiv.py`)

`license_allows_download` combines substring tests with the word-boundary
regex `\bcc[-_ ]?(by|by[-]nc|by[-]sa|by[-]nc[-]sa|by[_-]nd|0)\b`.  The regex
is embedded as an explicit scan: a match site needs a non-word character (or
the start) before `cc`, then an optional `-`/`_`/space separator, then one of
the alternatives followed by a non-word character (or the end). -/

/-- Python `\w` on the ASCII text these licenses use. -/
def isWordChar (c : Char) : Bool := c.isAlphanum || c = '_'

/-- Trailing `\b` after an alternative: end of text or a non-word char. -/
def tailBoundary : List Char → Bool
  | [] => true
  | c :: _ => !isWordChar c

/-- The alternation `(by|by[-]nc|by[-]sa|by[-]nc[-]sa|by[_-]nd|0)` followed
by `\b`, tried at the head of the list. -/
def ccAltHere (l : List Char) : Bool :=
  ["by-nc-sa", "by-nc", "by-sa", "by-nd", "by_nd", "by", "0"].any fun a =>
    a.data.isPrefixOf l && tailBoundary (l.drop a.length)

/-- Matches `cc`, an optional `[-_ ]` separator, then a boundary-terminated
alternative, at the head of the list. -/
def ccCoreHere : List Char → Bool
  | 'c' :: 'c' :: rest =>
    ccAltHere rest ||
      (match rest with
       | c :: rest2 => (c = '-' || c = '_' || c = ' ') && ccAltHere rest2
       | [] => false)
  | _ => false

/-- Search every position, tracking the previous character for the leading
`\b`. -/
def ccWordGo : Option Char → List Char → Bool
  | _, [] => false
  | prev, c :: cs =>
    let boundaryOk := match prev with | none => true | some p => !isWordChar p
    (boundaryOk && ccCoreHere (c :: cs)) || ccWordGo (some c) cs

/-- Python `re.search` of the bioRxiv CC regex over the whole text. -/
def ccWordSearch (l : List Char) : Bool := ccWordGo none l

/-- Python `license_allows_download` of `biorxiv.py`.  (The Python source tests
`"creativecommons" in l or "creativecommons.org" in l`; the second disjunct
is subsumed by the first.) -/
def license_allows_download (lic : Option String) : Bool :=
  match lic with
  | none => false
  | some s =>
    if s = "" then false
    else
      let l := pyNormText s
      if containsSub "creativecommons".data l then true
      else if ccWordSearch l then true
      else if containsSub "cc0".data l || containsSub "public domain".data l then true
      else false

/-! ## Spec-side predicates

These two definitions follow the specification's words, not the source; they
exist only to compare the implementations against the spec sentence. -/

/-- Modelled from the spec: `is_allowed(tags, whitelist)` — a null or empty
whitelist allows everything, otherwise some tag of the candidate must be in
the lower-cased whitelist set. -/
def specIsAllowed (tags : List String) (whitelist : Option (List String)) : Bool :=
  match whitelist with
  | none => true
  | some wl =>
    wl.isEmpty || tags.any fun t => (wl.map fun x => String.mk (pyLower x.data)).contains t

/-- The normalized license tags a DOAJ candidate carries, in the sense of
the spec's "at least one normalized tag from the candidate": every
non-empty normalized `type` of its license entries. -/
def doajLicTypes : DoajLicField → List String
  | .listF es => (es.map fun e => doajNorm e.ltype).filter fun t => !(t = "")
  | .dictF e => if doajNorm e.ltype = "" then [] else [doajNorm e.ltype]
  | _ => []

/-! ## Atomic store model (claim about safe writes)

A writer is a list of micro-steps over a two-slot filesystem (the temp path
and the final path).  `writeTmp`/`renameTmp` model `open(tmp).write(...)`
followed by the atomic `os.replace`/`Path.replace`; `openFinal` models
opening the final path with mode `w`/`wb` (which truncates it) and
`appendFinal` the subsequent write, as `Path.write_bytes` /
`open(path, "wb")` do.  Interruption is observation after any prefix of the
steps. -/

structure WState where
  tmp : Option (List Nat)
  final : Option (List Nat)
deriving DecidableEq

inductive WStep where
  | writeTmp (d : List Nat)
  | renameTmp
  | openFinal
  | appendFinal (d : List Nat)
deriving DecidableEq

def wstep : WState → WStep → WState
  | st, .writeTmp d => { st with tmp := some d }
  | st, .renameTmp => { tmp := none, final := st.tmp }
  | st, .openFinal => { st with final := some [] }
  | st, .appendFinal d => { st with final := some ((st.final.getD []) ++ d) }

/-- Every intermediate state of a run, the initial state included. -/
def statesAfter (st : WState) : List WStep → List WState
  | [] => [st]
  | o :: os => st :: statesAfter (wstep st o) os

/-- The write path of `write_json`/`write_bytes` in `oai_pmh.py` and of
`safe_write_json`/`safe_write_bytes` in `doaj.py`, `zenodo.py`,
`figshare.py`, `arxiv.py` and `biorxiv.py`: write the temp file, then one
atomic rename. -/
def tmpRenameOps (d : List Nat) : List WStep := [.writeTmp d, .renameTmp]

/-- The write path of `safe_write_bytes`/`safe_write_json` in `utils_net.py`
(`Path.write_bytes`/`Path.write_text`) and of the `open(...).write(...)`
calls in `pmc.py`: the final path is opened (truncated) and then written
directly. -/
def directOps (d : List Nat) : List WStep := [.openFinal, .appendFinal d]

/-- No interruption point shows a partially written final file: at every
prefix of the steps the final path is absent or holds the full data. -/
def atomicOkB (ops : List WStep) (d : List Nat) : Bool :=
  (statesAfter ⟨none, none⟩ ops).all fun st => st.final == none || st.final == some d

/-! ## Filesystem and per-candidate processing model

Files are abstracted to a kind (`bytes` with a length, metadata JSON, or an
outcome-sidecar JSON carrying its `reason` string); a filesystem maps paths
to them.  Each connector's per-candidate body becomes a function from the
candidate, its whitelist, the scripted network outcome and the filesystem to
the new filesystem and the ordered list of writes performed. -/

inductive FileVal where
  | bytes (n : Nat)
  | jsonMeta
  | jsonInfo (reason : String)
deriving DecidableEq

/-- Python `st_size` of a stored file (JSON artifacts are nonempty). -/
def fileSize : FileVal → Nat
  | .bytes n => n
  | .jsonMeta => 1
  | .jsonInfo _ => 1

abbrev FS := String → Option FileVal

def setF (fs : FS) (p : String) (v : FileVal) : FS :=
  fun q => if q = p then some v else fs q

def emptyFS : FS := fun _ => none

/-- An HTTP exchange outcome as the connectors see it. -/
inductive NetEv where
  | resp (status : Nat) (ctype : String) (urlPath : String) (body : List Nat)
  | timeoutE
  | connErr
deriving DecidableEq

/-! ### DOAJ (`doaj.py`, `run_from_config` lines 219-261) -/

/-- One DOAJ article as the per-record body consumes it: the id picked by
`pick_id`, the license field of its bibjson, and the links extracted by
`extract_links_for_pdf`. -/
structure DoajRec where
  aid : String
  lic : DoajLicField
  pdfUrl : Option String
  htmlUrl : Option String
deriving DecidableEq

def doajDir (rec : DoajRec) : String := "doaj/" ++ rec.aid
def doajMetaPath (rec : DoajRec) : String := doajDir rec ++ "/article.metadata.json"
def doajPdfPath (rec : DoajRec) : String := doajDir rec ++ "/fulltext.pdf"
def doajSidecarPath (rec : DoajRec) : String := doajDir rec ++ "/fulltext.pdf.metadata.json"
def doajLinkPath (rec : DoajRec) : String := doajDir rec ++ "/fulltext.link.json"

/-- Python `download` of `doaj.py`: a GET that raises (connection error or
`raise_for_status`, i.e. status ≥ 400) yields `None`; any other response
body is returned as-is, with no content-type or magic-byte inspection. -/
def doajDownload : Option NetEv → Option (List Nat)
  | some (.resp status _ _ body) => if status < 400 then some body else none
  | _ => none

/-- The `Save raw record once` step: metadata written only when absent. -/
def doajMetaStep (rec : DoajRec) (fs : FS) : FS × List (String × FileVal) :=
  if (fs (doajMetaPath rec)).isNone then
    (setF fs (doajMetaPath rec) .jsonMeta, [(doajMetaPath rec, FileVal.jsonMeta)])
  else (fs, [])

/-- The PDF step: with a `pdf_url`, an absent `fulltext.pdf` and a truthy
downloaded blob, write the PDF and its sidecar. -/
def doajPdfStep (rec : DoajRec) (net : Option NetEv) (fs : FS) :
    FS × List (String × FileVal) :=
  match rec.pdfUrl with
  | some _ =>
    if (fs (doajPdfPath rec)).isNone then
      match doajDownload net with
      | some blob =>
        if blob.isEmpty then (fs, [])
        else
          (setF (setF fs (doajPdfPath rec) (.bytes blob.length))
              (doajSidecarPath rec) .jsonMeta,
            [(doajPdfPath rec, FileVal.bytes blob.length),
             (doajSidecarPath rec, FileVal.jsonMeta)])
      | none => (fs, [])
    else (fs, [])
  | none => (fs, [])

/-- The HTML-link pointer, rewritten unconditionally when a `html_url`
exists. -/
def doajLinkStep (rec : DoajRec) (fs : FS) : FS × List (String × FileVal) :=
  match rec.htmlUrl with
  | some _ => (setF fs (doajLinkPath rec) .jsonMeta,
               [(doajLinkPath rec, FileVal.jsonMeta)])
  | none => (fs, [])

/-- The per-record body of DOAJ `run_from_config`: license gate first (a
denied record is skipped entirely), metadata written once, the PDF fetched
and written with a sidecar when a `pdf_url` exists, the file is absent and
the download returned truthy bytes, and an HTML-link pointer rewritten
unconditionally. -/
def doajProcess (rec : DoajRec) (whitelist : List String) (net : Option NetEv)
    (fs : FS) : FS × List (String × FileVal) :=
  if !(doajAllowed rec.lic whitelist) then (fs, [])
  else
    let s1 := doajMetaStep rec fs
    let s2 := doajPdfStep rec net s1.1
    let s3 := doajLinkStep rec s2.1
    (s3.1, s1.2 ++ s2.2 ++ s3.2)

/-! ### Zenodo (`zenodo.py`, `run_from_config` lines 147-201) -/

/-- One entry of a record's `files` array. -/
structure ZFile where
  key : Option String
  filename : Option String
  fid : Option String
  download : Option String
  selfLink : Option String
deriving DecidableEq

/-- Python `f.get("key") or f.get("filename") or f.get("id") or "file"`. -/
def zFileName (f : ZFile) : String :=
  let s := firstNonempty [f.key, f.filename, f.fid]
  if s = "" then "file" else s

/-- Python `links.get("download") or links.get("self")`, with a falsy result
skipping the file. -/
def zDlUrl (f : ZFile) : Option String :=
  let u := firstNonempty [f.download, f.selfLink]
  if u = "" then none else some u

structure ZenodoRec where
  rid : String
  lic : ZenodoLicField
  files : List ZFile
deriving DecidableEq

def zenodoDir (rec : ZenodoRec) : String := "zenodo/" ++ rec.rid
def zenodoMetaPath (rec : ZenodoRec) : String := zenodoDir rec ++ "/record.metadata.json"
def zenodoFilePath (rec : ZenodoRec) (f : ZFile) : String :=
  zenodoDir rec ++ "/" ++ zFileName f
def zenodoSidecarPath (rec : ZenodoRec) (f : ZFile) : String :=
  zenodoFilePath rec f ++ ".metadata.json"

/-- Python `dl_file` of `zenodo.py`: like DOAJ's `download`, no format check. -/
def zenodoDlFile : Option NetEv → Option (List Nat)
  | some (.resp status _ _ body) => if status < 400 then some body else none
  | _ => none

/-- Python `out_file.exists() and out_file.stat().st_size > 0`. -/
def zenodoSkipB (fs : FS) (out : String) : Bool :=
  match fs out with
  | some v => decide (0 < fileSize v)
  | none => false

/-- One iteration of the Zenodo files loop: skip without a download URL,
skip when the file exists with positive size, write file and sidecar on a
truthy downloaded blob. -/
def zenodoFileStep (rec : ZenodoRec) (oracle : ZFile → Option NetEv)
    (f : ZFile) (fs : FS) : FS × List (String × FileVal) :=
  match zDlUrl f with
  | none => (fs, [])
  | some _ =>
    if zenodoSkipB fs (zenodoFilePath rec f) then (fs, [])
    else
      match zenodoDlFile (oracle f) with
      | some blob =>
        if blob.isEmpty then (fs, [])
        else
          (setF (setF fs (zenodoFilePath rec f) (.bytes blob.length))
              (zenodoSidecarPath rec f) .jsonMeta,
            [(zenodoFilePath rec f, FileVal.bytes blob.length),
             (zenodoSidecarPath rec f, FileVal.jsonMeta)])
      | none => (fs, [])

/-- The per-file loop of Zenodo `run_from_config`. -/
def zenodoFilesLoop (rec : ZenodoRec) (oracle : ZFile → Option NetEv) :
    List ZFile → FS → FS × List (String × FileVal)
  | [], fs => (fs, [])
  | f :: rest, fs =>
    let s1 := zenodoFileStep rec oracle f fs
    let s2 := zenodoFilesLoop rec oracle rest s1.1
    (s2.1, s1.2 ++ s2.2)

/-- The metadata step of Zenodo `run_from_config`: written only when
absent. -/
def zenodoMetaStep (rec : ZenodoRec) (fs : FS) : FS × List (String × FileVal) :=
  if (fs (zenodoMetaPath rec)).isNone then
    (setF fs (zenodoMetaPath rec) .jsonMeta, [(zenodoMetaPath rec, FileVal.jsonMeta)])
  else (fs, [])

/-- The per-record body of Zenodo `run_from_config`: license gate first
(denied records are skipped entirely), record metadata written once, then
the files loop. -/
def zenodoProcess (rec : ZenodoRec) (whitelist : List String)
    (oracle : ZFile → Option NetEv) (fs : FS) : FS × List (String × FileVal) :=
  if !(zenodoAllowed rec.lic whitelist) then (fs, [])
  else
    let s1 := zenodoMetaStep rec fs
    let s2 := zenodoFilesLoop rec oracle rec.files s1.1
    (s2.1, s1.2 ++ s2.2)

/-! ### arXiv PDF fetching (`arxiv.py`, `fetch_pdf_with_retries` lines 226-289)

The retry loop is driven by a scripted response sequence: `script i` is the
outcome of the `i`-th GET issued.  Only the loop's own classification is
modelled; the underlying adapter's `Retry` does not retry the statuses this
loop sees (403, 404, 429 are outside its forcelist). -/

def arxivRetryStatuses : List Nat := [500, 502, 503, 504, 520, 522, 524]

inductive ArxivOut where
  | okBytes (b : List Nat)
  | notFound
  | exhausted
deriving DecidableEq

/-- The attempt loop: a transient status, a 200 without a PDF content type,
any other non-200/non-404 status, and a request exception all fall through
to the next attempt; 200 with a PDF content type succeeds; 404 returns
`False` at once.  The second component is the next unread script index
(the number of GETs issued so far). -/
def arxivAttemptLoop (script : Nat → NetEv) : Nat → Nat → ArxivOut × Nat
  | idx, 0 => (.exhausted, idx)
  | idx, n + 1 =>
    match script idx with
    | .timeoutE | .connErr => arxivAttemptLoop script (idx + 1) n
    | .resp st ct _ b =>
      if arxivRetryStatuses.contains st then arxivAttemptLoop script (idx + 1) n
      else if st = 200 then
        if containsSub "application/pdf".data (pyLower ct.data) then (.okBytes b, idx + 1)
        else arxivAttemptLoop script (idx + 1) n
      else if st = 404 then (.notFound, idx + 1)
      else arxivAttemptLoop script (idx + 1) n

/-- The final e-print fallback: one more GET, succeeding only on a 200 with
a PDF content type. -/
def arxivFallbackGet (script : Nat → NetEv) (idx : Nat) : Option (List Nat) × Nat :=
  match script idx with
  | .resp st ct _ b =>
    (if st = 200 && containsSub "application/pdf".data (pyLower ct.data)
     then some b else none, idx + 1)
  | _ => (none, idx + 1)

/-- The body of `fetch_pdf_with_retries` once the existence check has been
passed: run the attempt loop, then the fallback; on success write the PDF
via the atomic writer.  Returns (filesystem, saved?, GETs issued). -/
def arxivFetchRun (fs : FS) (pdfPath : String) (script : Nat → NetEv)
    (maxRetries : Nat) : FS × Bool × Nat :=
  match arxivAttemptLoop script 0 maxRetries with
  | (.okBytes b, n) => (setF fs pdfPath (.bytes b.length), true, n)
  | (.notFound, n) => (fs, false, n)
  | (.exhausted, n) =>
    match arxivFallbackGet script n with
    | (some b, m) => (setF fs pdfPath (.bytes b.length), true, m)
    | (none, m) => (fs, false, m)

/-- Python `fetch_pdf_with_retries`: an existing output file larger than 1024 bytes
returns `True` immediately, with no network traffic and no writes. -/
def fetch_pdf_with_retries (fs : FS) (pdfPath : String) (script : Nat → NetEv)
    (maxRetries : Nat) : FS × Bool × Nat :=
  match fs pdfPath with
  | some v =>
    if decide (1024 < fileSize v) then (fs, true, 0)
    else arxivFetchRun fs pdfPath script maxRetries
  | none => arxivFetchRun fs pdfPath script maxRetries

/-! ### bioRxiv/medRxiv (`biorxiv.py`) -/

/-- Python `slugify` of `biorxiv.py`. -/
def collapseDash : List Char → List Char
  | [] => []
  | [c] => [c]
  | c :: d :: rest =>
    if c = '-' && d = '-' then collapseDash (d :: rest)
    else c :: collapseDash (d :: rest)

def stripDashes (l : List Char) : List Char :=
  ((l.dropWhile (· = '-')).reverse.dropWhile (· = '-')).reverse

def biorxivSlug (text : String) : String :=
  let t := pyLower (pyStrip text.data)
  let t := t.map fun c => if c = ' ' then '-' else if c = '/' then '_' else c
  let t := t.map fun c =>
    if c.isAlphanum || c = '-' || c = '.' || c = '_' then c else '-'
  let t := stripDashes (collapseDash t)
  if t.isEmpty then "item" else String.mk t

/-- One record of the `/details` collection, with the fields the harvester
reads. -/
structure BxRec where
  doi : String
  title : String
  abstract : String
  category : String
  license : Option String
  version : Option String
deriving DecidableEq

/-- Python `fits_keywords`: AND over keywords, substring over the lower-cased
title/abstract/category haystack. -/
def fits_keywords (rec : BxRec) (keywords : List String) : Bool :=
  if keywords.isEmpty then true
  else
    let hay := pyLower (joinSep " " [rec.title, rec.abstract, rec.category]).data
    keywords.all fun k => containsSub (pyLower k.data) hay

/-- Python `pdf_url_from_rec`: needs a truthy doi and version. -/
def pdf_url_from_rec (rec : BxRec) (server : String) : Option String :=
  let doi := String.mk (pyStrip rec.doi.data)
  match rec.version with
  | some v =>
    if doi = "" || v = "" then none
    else
      let host := if server = "biorxiv" then "www.biorxiv.org" else "www.medrxiv.org"
      some ("https://" ++ host ++ "/content/" ++ doi ++ "v" ++ v ++ ".full.pdf")
  | none => none

/-- Python `is_probably_pdf_response`: "pdf" in the lower-cased content type, or a
`.pdf` URL path. -/
def is_probably_pdf_response (ctype urlPath : String) : Bool :=
  containsSub "pdf".data (pyLower ctype.data) || endsWithL ".pdf".data urlPath.data

/-- The `%PDF` magic as bytes. -/
def pdfMagic : List Nat := [37, 80, 68, 70]

/-- Python `try_download_pdf` of `biorxiv.py`: on an OK response the content is
returned only when the response looks like a PDF (content type, URL
extension, or `%PDF` magic); a 404 or a non-PDF body yields `None` without
retrying; other HTTP errors and timeouts retry until the attempts run out. -/
def try_download_pdf (script : Nat → NetEv) : Nat → Nat → Option (List Nat) × Nat
  | idx, 0 => (none, idx)
  | idx, n + 1 =>
    match script idx with
    | .timeoutE | .connErr =>
      if n = 0 then (none, idx + 1) else try_download_pdf script (idx + 1) n
    | .resp st ct up b =>
      if st < 400 then
        if is_probably_pdf_response ct up || pdfMagic.isPrefixOf b
        then (some b, idx + 1) else (none, idx + 1)
      else if st = 404 then (none, idx + 1)
      else if n = 0 then (none, idx + 1) else try_download_pdf script (idx + 1) n

def biorxivItemDir (server doi : String) : String := server ++ "/" ++ biorxivSlug doi
def biorxivMetaPath (server doi : String) : String := biorxivItemDir server doi ++ "/metadata.json"
def biorxivPdfPath (server doi : String) : String := biorxivItemDir server doi ++ "/paper.pdf"
def biorxivInfoPath (server doi : String) : String := biorxivItemDir server doi ++ "/paper.pdf.info.json"

/-- The per-record body of `harvest_biorxiv` (lines 287-350): keyword filter
and truthy-doi guard, metadata saved/refreshed unconditionally, then the
PDF branch with its three sidecar outcomes. -/
def biorxivProcess (server : String) (rec : BxRec) (keywords : List String)
    (download_pdfs : Bool) (script : Nat → NetEv) (retries : Nat) (fs : FS) :
    FS × List (String × FileVal) :=
  if !(fits_keywords rec keywords) then (fs, [])
  else
    let doi := String.mk (pyStrip rec.doi.data)
    if doi = "" then (fs, [])
    else
      let metaP := biorxivMetaPath server doi
      let pdfP := biorxivPdfPath server doi
      let infoP := biorxivInfoPath server doi
      let fs1 := setF fs metaP .jsonMeta
      let w1 := [(metaP, FileVal.jsonMeta)]
      if download_pdfs && (fs1 pdfP).isNone then
        match pdf_url_from_rec rec server with
        | some _ =>
          if license_allows_download rec.license then
            match (try_download_pdf script 0 retries).1 with
            | some b =>
              if b.isEmpty then
                (setF fs1 infoP (.jsonInfo "download_failed_or_not_pdf"),
                 w1 ++ [(infoP, FileVal.jsonInfo "download_failed_or_not_pdf")])
              else
                let fsA := setF fs1 pdfP (.bytes b.length)
                let fsB := setF fsA infoP (.jsonInfo "downloaded")
                (fsB, w1 ++ [(pdfP, FileVal.bytes b.length),
                             (infoP, FileVal.jsonInfo "downloaded")])
            | none =>
              (setF fs1 infoP (.jsonInfo "download_failed_or_not_pdf"),
               w1 ++ [(infoP, FileVal.jsonInfo "download_failed_or_not_pdf")])
          else
            (setF fs1 infoP (.jsonInfo "license_not_allowed_or_unknown"),
             w1 ++ [(infoP, FileVal.jsonInfo "license_not_allowed_or_unknown")])
        | none => (fs1, w1)
      else (fs1, w1)

/-! ### PMC (`pmc.py`, `harvest_pmc` per-id body, lines 326-369) -/

/-- The per-PMCID body after the XML fetch succeeded: skip on the license
decision, then skip when no PDF bytes were obtained; only a kept id with a
truthy PDF writes anything, and then it writes metadata and PDF together
(both as direct, non-atomic writes). -/
def pmcProcessId (pmcid qdir : String) (normTag : Option String)
    (allowed_licenses : List String) (permit_unlicensed_readonly : Bool)
    (pdfResult : Option (List Nat)) : List (String × FileVal) :=
  if !(pmcKeep normTag allowed_licenses permit_unlicensed_readonly) then []
  else
    match pdfResult with
    | none => []
    | some b =>
      if b.isEmpty then []
      else [(qdir ++ "/" ++ pmcid ++ ".json", FileVal.jsonMeta),
            (qdir ++ "/" ++ pmcid ++ ".pdf", FileVal.bytes b.length)]

/-! ### OAI-PMH per-record body (`oai_pmh.py`, `run_from_config` lines
294-343) -/

/-- The character class of `SAFE_CHARS`. -/
def safeChar (c : Char) : Bool :=
  c.isAlphanum || c = '-' || c = '_' || c = '.' || c = '(' || c = ')' || c = ' '

/-- Python `re.sub(r"\s+", "_", s)`: each maximal whitespace run becomes one `_`. -/
def wsRuns : Bool → List Char → List Char
  | _, [] => []
  | prevWs, c :: cs =>
    if pyIsSpace c then
      (if prevWs then wsRuns true cs else '_' :: wsRuns true cs)
    else c :: wsRuns false cs

/-- Python `sanitize` of `oai_pmh.py`. -/
def sanitize (s : String) (maxlen : Nat) : String :=
  if s = "" then "na"
  else
    let kept := (s.data.filter safeChar)
    let t := (wsRuns false (pyStrip kept)).take maxlen
    if t.isEmpty then "na" else String.mk t

/-- Python `any_query_match` of `oai_pmh.py`: quoted queries match their stripped
inner text, others match as plain substrings of the joined lower-cased
haystack. -/
def any_query_match (queries : List String) (haystack_fields : List String) : Bool :=
  if queries.isEmpty then true
  else
    let hay := pyLower (joinSep " \n " haystack_fields).data
    queries.any fun q0 =>
      let qd := pyLower (pyStrip q0.data)
      if qd.isEmpty then false
      else if qd.head? = some '"' && endsWithL ['"'] qd && decide (1 < qd.length) then
        containsSub (pyStrip ((qd.drop 1).dropLast)) hay
      else containsSub qd hay

/-- One harvested OAI record: header identifier/datestamp, endpoint host,
`dc:rights` texts, and the dc fields used for query matching. -/
structure OaiRecord where
  identifier : String
  datestamp : String
  host : String
  rights : List String
  matchFields : List String
deriving DecidableEq

/-- The per-record body of OAI `run_from_config`: the license gate comes
first and a denied record is skipped entirely (`continue` before any
write); otherwise each matching query bucket gets a metadata file and, when
the identifier scan produced truthy PDF bytes, one PDF file.  `pdf` is the
first truthy result of the `choose_pdf_identifiers` loop together with the
basename of its URL. -/
def oaiProcess (rec : OaiRecord) (whitelist global_allow : Option (List String))
    (qlist : List String) (pdf : Option (String × List Nat)) : List (String × FileVal) :=
  if !(is_license_allowed rec.rights whitelist global_allow) then []
  else
    let matchTargets := if rec.matchFields.isEmpty then [""] else rec.matchFields
    let qs := if qlist.isEmpty then [""] else qlist
    (qs.map fun q =>
      if q ≠ "" && !(any_query_match [q] matchTargets) then []
      else
        let recSlug := sanitize (firstNonempty [some rec.identifier, some rec.datestamp, some "record"]) 120
        let outDir := "oai_pmh/" ++ sanitize (if q = "" then "all" else q) 120
          ++ "/" ++ rec.host ++ "/" ++ recSlug
        let metaW := [(outDir ++ "/metadata.json", FileVal.jsonMeta)]
        match pdf with
        | some (nm, b) =>
          if b.isEmpty then metaW
          else
            let name0 := sanitize nm 120
            let name := if endsWithL ".pdf".data (pyLower name0.data) then name0
                        else name0 ++ ".pdf"
            metaW ++ [(outDir ++ "/" ++ name, FileVal.bytes b.length)]
        | none => metaW).flatten

/-! ## HTTP retry layers (claims about retry/backoff)

`mk_session` in `utils_net.py` only configures `requests`/urllib3 `Retry`
(total=5, forcelist {429, 500, 502, 503, 504}, exponential backoff factor
0.5); the retry machinery itself lives in urllib3, outside this repository.
`sessionGet` is therefore modelled from the spec's contract for the HTTP
client: retry on the transient status set and on connection/timeout errors
up to the attempt bound, return any other response as-is. -/

def retry_status_forcelist : List Nat := [429, 500, 502, 503, 504]

/-- Modelled from the spec: a session GET with `mk_session`'s `Retry`
configuration.  `script i` is the outcome of the `i`-th wire request;
the result is the first response whose status is not in the forcelist
(`none` when the retries are exhausted first), paired with the number of
wire requests issued. -/
def sessionGet (script : Nat → NetEv) : Nat → Nat → Option (Nat × List Nat) × Nat
  | idx, 0 =>
    match script idx with
    | .resp st _ _ b =>
      if retry_status_forcelist.contains st then (none, idx + 1) else (some (st, b), idx + 1)
    | _ => (none, idx + 1)
  | idx, n + 1 =>
    match script idx with
    | .resp st _ _ b =>
      if retry_status_forcelist.contains st then sessionGet script (idx + 1) n
      else (some (st, b), idx + 1)
    | _ => sessionGet script (idx + 1) n

/-- Python `fetch_batch` of `biorxiv.py` as seen by its caller. -/
inductive BatchRes where
  | json (body : List Nat)
  | emptyColl
  | raised
deriving DecidableEq

/-- The retry loop of `fetch_batch` (lines 125-146): timeouts and connection
errors retry (re-raising on the last attempt); `raise_for_status` failures
with a 4xx status — 404 and 429 included — return an empty collection at
once; 5xx failures retry (re-raising on the last attempt); anything else
returns the parsed body. -/
def fetch_batch (script : Nat → NetEv) : Nat → Nat → BatchRes × Nat
  | idx, 0 => (.emptyColl, idx)
  | idx, n + 1 =>
    match script idx with
    | .timeoutE | .connErr =>
      if n = 0 then (.raised, idx + 1) else fetch_batch script (idx + 1) n
    | .resp st _ _ b =>
      if 400 ≤ st ∧ st < 500 then (.emptyColl, idx + 1)
      else if 500 ≤ st ∧ st < 600 then
        (if n = 0 then (.raised, idx + 1) else fetch_batch script (idx + 1) n)
      else (.json b, idx + 1)

/-! ## Pagination loops (claims about termination)

Each loop is driven by a response script; the second component of each
result counts the page requests issued. -/

/-- Python `iter_records` of `zenodo.py`: `for page in range(1, pages+1)`, breaking
on a failed request, an empty hit list, or a short page (against the
clamped size `max 1 (min size 1000)`).  `script p` is page `p`'s outcome
(`none` = the GET/parse raised). -/
def zenodoIterGo (script : Nat → Option (List α)) (size : Nat) :
    Nat → Nat → List α × Nat
  | _, 0 => ([], 0)
  | page, fuel + 1 =>
    match script page with
    | none => ([], 1)
    | some hits =>
      if hits.isEmpty then ([], 1)
      else if hits.length < max 1 (min size 1000) then (hits, 1)
      else
        let (rest, n) := zenodoIterGo script size (page + 1) fuel
        (hits ++ rest, n + 1)

def iter_records (script : Nat → Option (List α)) (size pages : Nat) : List α × Nat :=
  zenodoIterGo script size 1 pages

/-- Python `iter_articles` of `figshare.py`: the same loop with the raw
`page_size` as the short-page bound. -/
def figshareIterGo (script : Nat → Option (List α)) (page_size : Nat) :
    Nat → Nat → List α × Nat
  | _, 0 => ([], 0)
  | page, fuel + 1 =>
    match script page with
    | none => ([], 1)
    | some arts =>
      if arts.isEmpty then ([], 1)
      else if arts.length < page_size then (arts, 1)
      else
        let (rest, n) := figshareIterGo script page_size (page + 1) fuel
        (arts ++ rest, n + 1)

def iter_articles (script : Nat → Option (List α)) (page_size pages : Nat) : List α × Nat :=
  figshareIterGo script page_size 1 pages

/-- The `while total_seen < total_target` loop of `harvest_query` in
`arxiv.py`, under the assumption that every page request returns a response
(`script i` = the entries and reported total of the `i`-th successful
fetch).  `none` means the given fuel ran out before the loop finished;
`some n` means the loop finished after `n` further page requests. -/
def arxivHarvestGo (script : Nat → List α × Nat) (target : Nat) :
    Nat → Nat → Nat → Nat → Option Nat
  | _, _, _, 0 => none
  | seen, start, reqIdx, fuel + 1 =>
    if target ≤ seen then some 0
    else
      let (entries, total) := script reqIdx
      if entries.isEmpty then some 1
      else
        let got := entries.length
        if total ≤ start + got then some 1
        else
          match arxivHarvestGo script target (seen + got) (start + got) (reqIdx + 1) fuel with
          | some n => some (n + 1)
          | none => none

/-! ## OAI-PMH `ListRecords` pagination (`oai_pmh.py` lines 105-160) -/

/-- One `<record>`: does it have a header, the header's `status` attribute,
and an index distinguishing the record. -/
structure OaiHdrRec where
  hasHeader : Bool
  status : Option String
  tag : Nat
deriving DecidableEq

/-- One `ListRecords` response: `isError` covers an HTTP error, a parse
failure, or an OAI `<error>` element (each makes the generator return
without yielding from that page); otherwise its records and its
`resumptionToken` text. -/
structure OaiPage where
  isError : Bool
  records : List OaiHdrRec
  token : Option String
deriving DecidableEq

/-- Python `if not token: break` on `(rt.text or "").strip() if rt is not None
else None`. -/
def tokenSome (t : Option String) : Bool :=
  match t with
  | some s => !(pyStrip s.data).isEmpty
  | none => false

/-- The records one page yields: header present and not flagged deleted. -/
def pageYield (p : OaiPage) : List OaiHdrRec :=
  p.records.filter fun r => r.hasHeader && !(r.status == some "deleted")

/-- The `ListRecords` loop: fetch a page; on an error return; otherwise
yield its surviving records and continue exactly when the resumption token
is non-empty.  Returns the yielded records and the number of page requests
issued within the given fuel. -/
def oai_list_records (script : Nat → OaiPage) : Nat → Nat → List OaiHdrRec × Nat
  | _, 0 => ([], 0)
  | idx, fuel + 1 =>
    let p := script idx
    if p.isError then ([], 1)
    else
      let ys := pageYield p
      if tokenSome p.token then
        let (rest, n) := oai_list_records script (idx + 1) fuel
        (ys ++ rest, n + 1)
      else (ys, 1)

/-! ## The bioRxiv `RateLimiter` constructor (`biorxiv.py` lines 85-97,
241-264)

The class body defines a method named `_init_`, not `__init__`, so the
class has no constructor of its own and `RateLimiter(rate)` reaches
`object.__init__`, which rejects the extra positional argument with
`TypeError` for every rate value. -/

inductive PyExc where
  | typeError
  | valueError
deriving DecidableEq

/-- Calling the `RateLimiter` class with `argCount` positional arguments. -/
def rateLimiterCall (argCount : Nat) : Except PyExc Unit :=
  if argCount = 0 then .ok () else .error .typeError

def VALID_SERVERS : List String := ["biorxiv", "medrxiv"]

/-- The prefix of `harvest_biorxiv` up to and including
`limiter = RateLimiter(rate)`: validate the server name (raising
`ValueError` otherwise), build a session (no traffic), then construct the
limiter.  The second component lists the HTTP requests issued and files
written before the outcome — always `[]`, since `ensure_dir(raw_dir)` and
every `fetch_batch` call come after the limiter construction. -/
def harvest_biorxiv_start (server : String) : Except PyExc Unit × List String :=
  let s := String.mk (pyStrip (pyLower server.data))
  if !(VALID_SERVERS.contains s) then (.error .valueError, [])
  else
    match rateLimiterCall 1 with
    | .error e => (.error e, [])
    | .ok _ => (.ok (), [])

/-! ## Spec-side format predicate -/

/-- Modelled from the spec: a response "indicates the expected binary
format" when its content type mentions PDF, its URL path has the `.pdf`
extension, or its body starts with the `%PDF` magic. -/
def specFormatIndicated : NetEv → Bool
  | .resp _ ct up b =>
    containsSub "pdf".data (pyLower ct.data)
      || endsWithL ".pdf".data (pyLower up.data)
      || pdfMagic.isPrefixOf b
  | _ => false

/-! ## Claim C1 — atomic writes -/

/-- C1 (counterexample): the claim says every metadata/payload writer goes
through a temp file and an atomic rename, so that no interruption exposes a
partial file under the final path.  `safe_write_bytes` of `utils_net.py`
(and the `open(path, "w"/"wb").write` calls of `pmc.py`) instead open the
final path directly: interrupting `directOps [1]` right after the open
exposes a truncated (empty) file at the final path, so the prefix-state
check fails. -/
theorem claim_c1_counterexample : atomicOkB (directOps [1]) [1] = false := rfl

/-- C1 (amended): the temp-file-then-rename writers (`write_json` and
`write_bytes` of `oai_pmh.py`, `safe_write_json`/`safe_write_bytes` of
`doaj.py`, `zenodo.py`, `figshare.py`, `arxiv.py` and `biorxiv.py`) are
atomic: at every interruption point the final path is either absent or
holds the complete data.  The direct writers of `utils_net.py` and `pmc.py`
are the exception established by the counterexample. -/
theorem claim_c1_amended (d : List Nat) : atomicOkB (tmpRenameOps d) d = true := by
  simp [atomicOkB, tmpRenameOps, statesAfter, wstep]

/-! ## Claim C2 — metadata written regardless of license/payload outcome -/

/-- C2 (counterexample): the claim says every discovered candidate gets a
metadata record on disk even when the license gate denies it.  In DOAJ
`run_from_config` a denied record hits `continue` before any write: this
concrete record (license type `all-rights-reserved` against whitelist
`["cc-by"]`) produces an empty write list — no metadata, no denial record. -/
theorem claim_c2_counterexample :
    (doajProcess ⟨"a1", .listF [⟨some "all-rights-reserved", none⟩], some "u", none⟩
      ["cc-by"] none emptyFS).2 = [] := rfl

/-- A bioRxiv record that passes the keyword filter and has a truthy DOI
always gets its metadata written first, whatever the license and download
outcome. -/
lemma biorxivWritesHead (server : String) (rec : BxRec) (kws : List String) (dl : Bool)
    (script : Nat → NetEv) (retries : Nat) (fs : FS)
    (hf : fits_keywords rec kws = true) (hd : ¬ String.mk (pyStrip rec.doi.data) = "") :
    ∃ t, (biorxivProcess server rec kws dl script retries fs).2
      = (biorxivMetaPath server (String.mk (pyStrip rec.doi.data)), FileVal.jsonMeta) :: t := by
  unfold biorxivProcess
  rw [hf]
  simp only [Bool.not_true, Bool.false_eq_true, if_false]
  rw [if_neg hd]
  split
  · split
    · split
      · split
        · split
          · exact ⟨_, rfl⟩
          · exact ⟨_, rfl⟩
        · exact ⟨_, rfl⟩
      · exact ⟨_, rfl⟩
    · exact ⟨_, rfl⟩
  · exact ⟨_, rfl⟩

/-- C2 (amended): in the OAI-PMH, DOAJ and Zenodo connectors a
license-denied candidate is skipped entirely — nothing at all is written
for it; in PMC, metadata is written exactly when the candidate passes the
license decision AND its PDF download returned truthy bytes (a payload
failure also suppresses the metadata); only the bioRxiv harvester writes
metadata for every candidate that passes the keyword filter and has a
truthy DOI, independent of the license outcome. -/
theorem claim_c2_amended :
    (∀ rec wl net fs, doajAllowed rec.lic wl = false →
        (doajProcess rec wl net fs).2 = [])
  ∧ (∀ rec wl ga qs pdf, is_license_allowed rec.rights wl ga = false →
        oaiProcess rec wl ga qs pdf = [])
  ∧ (∀ rec wl oracle fs, zenodoAllowed rec.lic wl = false →
        (zenodoProcess rec wl oracle fs).2 = [])
  ∧ (∀ pmcid qdir tag allowed permit pdfRes,
        ((qdir ++ "/" ++ pmcid ++ ".json", FileVal.jsonMeta) ∈
            pmcProcessId pmcid qdir tag allowed permit pdfRes)
          ↔ (pmcKeep tag allowed permit = true ∧ ∃ b, pdfRes = some b ∧ b ≠ []))
  ∧ (∀ server rec kws dl script retries fs,
        ((biorxivMetaPath server (String.mk (pyStrip rec.doi.data)), FileVal.jsonMeta) ∈
            (biorxivProcess server rec kws dl script retries fs).2)
          ↔ (fits_keywords rec kws = true ∧ String.mk (pyStrip rec.doi.data) ≠ "")) := by
  refine ⟨?_, ?_, ?_, ?_, ?_⟩
  · intro rec wl net fs h
    simp [doajProcess, h]
  · intro rec wl ga qs pdf h
    simp [oaiProcess, h]
  · intro rec wl oracle fs h
    simp [zenodoProcess, h]
  · intro pmcid qdir tag allowed permit pdfRes
    unfold pmcProcessId
    by_cases hk : pmcKeep tag allowed permit
    · cases pdfRes with
      | none => simp [hk]
      | some b =>
        by_cases hb : b.isEmpty
        · simp [hk, hb, List.isEmpty_iff.mp hb]
        · have : b ≠ [] := fun h => by simp [h] at hb
          simp [hk, hb, this]
    · simp [hk]
  · intro server rec kws dl script retries fs
    by_cases hf : fits_keywords rec kws
    · by_cases hd : String.mk (pyStrip rec.doi.data) = ""
      · simp [biorxivProcess, hf, hd]
      · obtain ⟨t, ht⟩ := biorxivWritesHead server rec kws dl script retries fs hf hd
        rw [ht]
        simp [hf, hd]
    · simp [biorxivProcess, hf]

/-! ## Claim C3 — payloads only for validated formats and allowed licenses -/

/-- C3 (counterexample): the claim says a payload is persisted only when the
response indicates the expected binary format — in particular that a 200
HTML landing page is never persisted.  DOAJ `download` returns any OK
response body unchecked, and `run_from_config` writes it as `fulltext.pdf`:
a 200 `text/html` response whose body is the ASCII of `<html` is persisted
as the payload even though the spec-side format predicate rejects it. -/
theorem claim_c3_counterexample :
    ((doajPdfPath ⟨"a2", .listF [⟨some "cc-by", none⟩], some "u", none⟩, FileVal.bytes 5)
        ∈ (doajProcess ⟨"a2", .listF [⟨some "cc-by", none⟩], some "u", none⟩ []
            (some (.resp 200 "text/html" "/articles/x" [60, 104, 116, 109, 108])) emptyFS).2)
  ∧ specFormatIndicated (.resp 200 "text/html" "/articles/x" [60, 104, 116, 109, 108]) = false := by
  exact ⟨by decide, rfl⟩

/-- bioRxiv `try_download_pdf` hands back bytes only from an OK response
that passed the PDF check (content type, `.pdf` URL path, or `%PDF` magic). -/
lemma try_download_pdf_format : ∀ (fuel : Nat) (script : Nat → NetEv) (idx b n),
    try_download_pdf script idx fuel = (some b, n) →
    ∃ st ct up, script (n - 1) = NetEv.resp st ct up b ∧ st < 400
      ∧ (is_probably_pdf_response ct up || pdfMagic.isPrefixOf b) = true := by
  intro fuel
  induction fuel with
  | zero => intro script idx b n h; simp [try_download_pdf] at h
  | succ k ih =>
    intro script idx b n h
    unfold try_download_pdf at h
    split at h
    · split at h
      · simp at h
      · exact ih script (idx + 1) b n h
    · split at h
      · simp at h
      · exact ih script (idx + 1) b n h
    · next st ct up body heq =>
      by_cases h4 : st < 400
      · rw [if_pos h4] at h
        by_cases hfmt : (is_probably_pdf_response ct up || pdfMagic.isPrefixOf body) = true
        · rw [if_pos hfmt] at h
          simp only [Prod.mk.injEq, Option.some.injEq] at h
          obtain ⟨hb, hn⟩ := h
          subst hb
          refine ⟨st, ct, up, ?_, h4, hfmt⟩
          have hidx : n - 1 = idx := by omega
          rw [hidx]
          exact heq
        · rw [if_neg hfmt] at h
          simp at h
      · rw [if_neg h4] at h
        split at h
        · simp at h
        · split at h
          · simp at h
          · exact ih script (idx + 1) b n h

/-- C3 (amended): the license half of the claim holds for all three cited
connectors — a payload write implies the gate passed (or was disabled) —
and the format half holds for bioRxiv, whose downloader validates the
content type, URL extension or `%PDF` magic before returning bytes.  DOAJ
and Zenodo perform no format validation: they persist whatever body an OK
response carried (the counterexample persists a 200 HTML landing page). -/
theorem claim_c3_amended :
    (∀ server rec kws dl script retries fs m,
        ((biorxivPdfPath server (String.mk (pyStrip rec.doi.data)), FileVal.bytes m) ∈
            (biorxivProcess server rec kws dl script retries fs).2) →
        license_allows_download rec.license = true)
  ∧ (∀ (fuel : Nat) (script : Nat → NetEv) (idx b n),
        try_download_pdf script idx fuel = (some b, n) →
        ∃ st ct up, script (n - 1) = NetEv.resp st ct up b
          ∧ (is_probably_pdf_response ct up || pdfMagic.isPrefixOf b) = true)
  ∧ (∀ rec wl net fs m,
        ((doajPdfPath rec, FileVal.bytes m) ∈ (doajProcess rec wl net fs).2) →
        doajAllowed rec.lic wl = true)
  ∧ (∀ rec wl oracle fs p m,
        ((p, FileVal.bytes m) ∈ (zenodoProcess rec wl oracle fs).2) →
        zenodoAllowed rec.lic wl = true) := by
  refine ⟨?_, ?_, ?_, ?_⟩
  · intro server rec kws dl script retries fs m hmem
    by_cases hl : license_allows_download rec.license
    · exact hl
    · exfalso
      unfold biorxivProcess at hmem
      by_cases hf : fits_keywords rec kws
      · rw [hf] at hmem
        simp only [Bool.not_true, Bool.false_eq_true, if_false] at hmem
        by_cases hd : String.mk (pyStrip rec.doi.data) = ""
        · rw [if_pos hd] at hmem
          simp at hmem
        · rw [if_neg hd] at hmem
          split at hmem <;> try simp_all
          all_goals (split at hmem <;> try simp_all)
      · simp [hf] at hmem
  · intro fuel script idx b n h
    obtain ⟨st, ct, up, h1, _, h3⟩ := try_download_pdf_format fuel script idx b n h
    exact ⟨st, ct, up, h1, h3⟩
  · intro rec wl net fs m hmem
    by_cases ha : doajAllowed rec.lic wl
    · exact ha
    · exfalso
      simp [doajProcess, ha] at hmem
  · intro rec wl oracle fs p m hmem
    by_cases ha : zenodoAllowed rec.lic wl
    · exact ha
    · exfalso
      simp [zenodoProcess, ha] at hmem

/-! ## Claim C4 — retry policy -/

/-- C4 (counterexample): the claim says every GET layer retries a 429.
`fetch_batch` of `biorxiv.py` treats every 4xx — 429 included — as
non-retryable: on a script whose first response is a 429 and whose second
would be a 200 carrying `[9]`, it returns an empty collection after exactly
one request; the 200 is never fetched, so the result differs from the
transparent `json [9]` the claim promises. -/
theorem claim_c4_counterexample :
    fetch_batch (fun i => if i = 0 then NetEv.resp 429 "" "" [7] else NetEv.resp 200 "" "" [9]) 0 3
      = (BatchRes.emptyColl, 1)
  ∧ decide (BatchRes.emptyColl = BatchRes.json [9]) = false := ⟨rfl, rfl⟩

/-- C4 (amended): the retry policies differ per layer.  The shared session
(`mk_session`, spec-modelled urllib3 `Retry`) retries exactly
{429, 500, 502, 503, 504}: a 503-then-200 and a 429-then-200 each
transparently return the 200 payload in two requests, and a 404 is returned
after one request.  The arXiv PDF loop retries 5xx and — against the claim —
also retries other non-200 statuses such as 403 (six attempts plus the
e-print fallback, seven requests), while stopping at once on 404.  The
bioRxiv batch fetcher retries connection errors and 5xx but treats every
4xx, 429 included, as final.  404 is never retried in any layer. -/
theorem claim_c4_amended :
    sessionGet (fun i => if i = 0 then NetEv.resp 503 "" "" [] else NetEv.resp 200 "" "" [9]) 0 5
      = (some (200, [9]), 2)
  ∧ sessionGet (fun i => if i = 0 then NetEv.resp 429 "" "" [] else NetEv.resp 200 "" "" [9]) 0 5
      = (some (200, [9]), 2)
  ∧ sessionGet (fun i => if i = 0 then NetEv.resp 404 "" "" [4] else NetEv.resp 200 "" "" [9]) 0 5
      = (some (404, [4]), 1)
  ∧ (arxivFetchRun emptyFS "p"
      (fun i => if i = 0 then NetEv.resp 503 "" "" []
                else NetEv.resp 200 "application/pdf" "" [37, 80]) 6).2 = (true, 2)
  ∧ (arxivFetchRun emptyFS "p"
      (fun i => if i = 0 then NetEv.resp 404 "" "" []
                else NetEv.resp 200 "application/pdf" "" [37, 80]) 6).2 = (false, 1)
  ∧ (arxivFetchRun emptyFS "p" (fun _ => NetEv.resp 403 "text/html" "" []) 6).2 = (false, 7)
  ∧ fetch_batch (fun i => if i = 0 then NetEv.timeoutE else NetEv.resp 200 "" "" [9]) 0 3
      = (BatchRes.json [9], 2)
  ∧ fetch_batch (fun i => if i = 0 then NetEv.resp 503 "" "" [] else NetEv.resp 200 "" "" [9]) 0 3
      = (BatchRes.json [9], 2)
  ∧ fetch_batch (fun i => if i = 0 then NetEv.resp 404 "" "" [] else NetEv.resp 200 "" "" [9]) 0 3
      = (BatchRes.emptyColl, 1) :=
  ⟨rfl, rfl, rfl, rfl, rfl, rfl, rfl, rfl, rfl⟩

/-! ## Claim C5 — `RateLimiter(rate)` always raises before any effect -/

/-- C5 (counterexample): the claim quantifies over every server name, but an
invalid server name (here "crossref") raises `ValueError` at the
`VALID_SERVERS` check, before `RateLimiter(rate)` is ever reached — the
outcome is `ValueError`, not the claimed `TypeError`. -/
theorem claim_c5_counterexample :
    harvest_biorxiv_start "crossref" = (Except.error PyExc.valueError, [])
  ∧ decide (PyExc.valueError = PyExc.typeError) = false := ⟨rfl, rfl⟩

/-- C5 (amended): for every server name that survives the validity check
(`biorxiv`/`medrxiv` after lower-casing and stripping), `harvest_biorxiv`
raises `TypeError` at `RateLimiter(rate)` — the class defines `_init_`
instead of `__init__`, so constructing it with an argument always fails —
and this happens before any HTTP request is issued or any file or
directory is created (the effect list is empty). -/
theorem claim_c5_amended (server : String)
    (hv : VALID_SERVERS.contains (String.mk (pyStrip (pyLower server.data))) = true) :
    harvest_biorxiv_start server = (Except.error PyExc.typeError, []) := by
  unfold harvest_biorxiv_start
  simp [hv, rateLimiterCall, List.mem_of_elem_eq_true hv]

/-- C5 witness: the valid server name "bioRxiv" (matching after
normalization) hits the `TypeError`. -/
theorem claim_c5_amended_witness :
    harvest_biorxiv_start "bioRxiv" = (Except.error PyExc.typeError, []) :=
  claim_c5_amended "bioRxiv" (by decide)

/-! ## Claim C7 — page iteration terminates -/

/-- The Zenodo page loop issues at most `fuel` page requests. -/
lemma zenodoIterGo_le (script : Nat → Option (List α)) (size : Nat) :
    ∀ fuel page, (zenodoIterGo script size page fuel).2 ≤ fuel := by
  intro fuel
  induction fuel with
  | zero => intro page; simp [zenodoIterGo]
  | succ f ih =>
    intro page
    unfold zenodoIterGo
    cases script page with
    | none => simp
    | some hits =>
      by_cases he : hits.isEmpty
      · simp [he]
      · simp only [he]
        by_cases hs : hits.length < max 1 (min size 1000)
        · simp [hs]
        · simp only [hs, if_false, if_true, Bool.false_eq_true]
          have := ih (page + 1)
          omega

/-- The Figshare page loop issues at most `fuel` page requests. -/
lemma figshareIterGo_le (script : Nat → Option (List α)) (ps : Nat) :
    ∀ fuel page, (figshareIterGo script ps page fuel).2 ≤ fuel := by
  intro fuel
  induction fuel with
  | zero => intro page; simp [figshareIterGo]
  | succ f ih =>
    intro page
    unfold figshareIterGo
    cases script page with
    | none => simp
    | some arts =>
      by_cases he : arts.isEmpty
      · simp [he]
      · simp only [he]
        by_cases hs : arts.length < ps
        · simp [hs]
        · simp only [hs, if_false, if_true, Bool.false_eq_true]
          have := ih (page + 1)
          omega

/-- With fuel exceeding the remaining quota, the arXiv harvest loop always
finishes: every successful page either ends the loop or strictly increases
`total_seen`, which is bounded by the target. -/
lemma arxivHarvestGo_total (script : Nat → List α × Nat) (target : Nat) :
    ∀ fuel seen start idx, target - seen < fuel →
      (arxivHarvestGo script target seen start idx fuel).isSome = true := by
  intro fuel
  induction fuel with
  | zero => intro seen start idx h; omega
  | succ f ih =>
    intro seen start idx h
    unfold arxivHarvestGo
    by_cases hts : target ≤ seen
    · simp [hts]
    · rw [if_neg hts]
      rcases hscript : script idx with ⟨entries, total⟩
      simp only [hscript]
      by_cases he : entries.isEmpty
      · simp [he]
      · have hlen : 0 < entries.length := by
          cases entries with
          | nil => simp at he
          | cons a t => simp
        simp only [he, Bool.false_eq_true, if_false]
        by_cases htot : total ≤ start + entries.length
        · simp [htot]
        · rw [if_neg htot]
          have hrec := ih (seen + entries.length) (start + entries.length) (idx + 1)
            (by omega)
          cases harx : arxivHarvestGo script target (seen + entries.length)
              (start + entries.length) (idx + 1) f with
          | none => rw [harx] at hrec; simp at hrec
          | some n => simp [harx]

/-- C7 (confirmed): the page-iteration loops terminate.  The Zenodo and
Figshare loops are bounded by their configured page count (and stop early
on an error, an empty page, or a short page); the arXiv
`while total_seen < total_target` loop — under the claim's assumption that
every page request returns a response — finishes within `target + 1` page
requests, because an empty page ends it and a non-empty page strictly
increases `total_seen` toward the target (short pages against the reported
total also end it). -/
theorem claim_c7 :
    (∀ (α : Type) (script : Nat → Option (List α)) size pages,
        (iter_records script size pages).2 ≤ pages)
  ∧ (∀ (α : Type) (script : Nat → Option (List α)) ps pages,
        (iter_articles script ps pages).2 ≤ pages)
  ∧ (∀ (α : Type) (script : Nat → List α × Nat) target,
        (arxivHarvestGo script target 0 0 0 (target + 1)).isSome = true) := by
  refine ⟨?_, ?_, ?_⟩
  · intro α script size pages
    exact zenodoIterGo_le script size pages 1
  · intro α script ps pages
    exact figshareIterGo_le script ps pages 1
  · intro α script target
    exact arxivHarvestGo_total script target (target + 1) 0 0 0 (by omega)

/-! ## Claim C8 — the license gate -/

/-- Distributing `List.any` over `filterMap`. -/
lemma any_filterMap (f : α → Option β) (p : β → Bool) (l : List α) :
    (l.filterMap f).any p
      = l.any fun a => match f a with | some b => p b | none => false := by
  induction l with
  | nil => rfl
  | cons a t ih => cases hf : f a <;> simp [List.filterMap_cons, hf, ih]

/-- C8 (counterexample): the claim says a candidate is allowed iff at least
one of its normalized tags intersects the whitelist.  The DOAJ gate
consults only the first license entry carrying a `type`: this candidate's
entries normalize to `["x-closed", "cc-by"]`, which intersects the
whitelist `["cc-by"]` (the spec-side gate allows it), yet `allowed_by_license`
denies it because the first entry's type `x-closed` is off-whitelist. -/
theorem claim_c8_counterexample :
    doajAllowed (DoajLicField.listF [⟨some "x-closed", none⟩, ⟨some "cc-by", none⟩])
      ["cc-by"] = false
  ∧ specIsAllowed
      (doajLicTypes (DoajLicField.listF [⟨some "x-closed", none⟩, ⟨some "cc-by", none⟩]))
      (some ["cc-by"]) = true := ⟨rfl, rfl⟩

/-- C8 (amended): the OAI-PMH gate `is_license_allowed` (with no global
allow list) implements exactly the claimed rule — null or empty whitelist
allows everything, otherwise allowed iff some rights text normalizes to a
tag in the lower-cased whitelist — and both named examples hold.  The DOAJ
and Zenodo gates likewise allow everything on an empty whitelist, but
against a non-empty whitelist they compare only the single license
extracted by `article_license`/`norm_license` (for DOAJ, the first entry
with a `type`), so the "at least one tag" reading fails for multi-license
candidates, as the counterexample shows. -/
theorem claim_c8_amended :
    (∀ texts wl, is_license_allowed texts wl none
        = specIsAllowed (texts.filterMap norm_license) wl)
  ∧ is_license_allowed [] (some ["cc-by"]) none = false
  ∧ is_license_allowed ["cc0"] none none = true
  ∧ (∀ bj, doajAllowed bj [] = true)
  ∧ (∀ lic, zenodoAllowed lic [] = true) := by
  refine ⟨?_, rfl, rfl, ?_, ?_⟩
  · intro texts wl
    cases wl with
    | none => rfl
    | some w =>
      by_cases hw : w = []
      · subst hw; simp [is_license_allowed, specIsAllowed]
      · have hwe : w.isEmpty = false := by simp [List.isEmpty_iff, hw]
        simp [is_license_allowed, specIsAllowed, hw, hwe, any_filterMap]
        congr 1
        funext a
        cases norm_license a <;> rfl
  · intro bj; rfl
  · intro lic; rfl

/-! ## Claim C10 — share-alike licenses normalize to `cc-by` -/

/-- A suffix search succeeds for any pointwise-weaker predicate. -/
lemma sufAny_mono (p q : List Char → Bool) (hpq : ∀ x, p x = true → q x = true) :
    ∀ l, sufAny p l = true → sufAny q l = true := by
  intro l
  induction l with
  | nil => intro h; exact hpq [] h
  | cons c cs ih =>
    intro h
    rcases Bool.or_eq_true_iff.mp h with h1 | h2
    · exact Bool.or_eq_true_iff.mpr (Or.inl (hpq _ h1))
    · exact Bool.or_eq_true_iff.mpr (Or.inr (ih h2))

/-- The `cc-by` pattern matches at any position where the literal text
`cc-by` begins. -/
lemma ccByAt_of_ccby (x : List Char) (h : List.isPrefixOf "cc-by".data x = true) :
    ccByAt x = true := by
  obtain ⟨t, ht⟩ := List.isPrefixOf_iff_prefix.mp h
  subst ht
  rfl

/-- C10 (confirmed): any input whose stripped lower-cased text contains the
literal `cc-by-sa` is normalized to `cc-by` (the `cc-by` regex is tried
first and already matches inside `cc-by-sa`); a `licenses/by-sa` URL also
normalizes to `cc-by` (the `licenses/by` substring test fires first); and a
share-alike-licensed record therefore passes a whitelist containing only
`cc-by`. -/
theorem claim_c10 :
    (∀ s, containsSub "cc-by-sa".data (pyNormText s) = true → norm_license s = some "cc-by")
  ∧ norm_license "https://creativecommons.org/licenses/by-sa/4.0/" = some "cc-by"
  ∧ is_license_allowed ["https://creativecommons.org/licenses/by-sa/4.0/"]
      (some ["cc-by"]) none = true
  ∧ is_license_allowed ["Creative Commons CC-BY-SA 4.0"] (some ["cc-by"]) none = true := by
  refine ⟨?_, rfl, rfl, rfl⟩
  intro s h
  have hcc : sufAny ccByAt (pyNormText s) = true := by
    refine sufAny_mono _ _ ?_ _ h
    intro x hx
    apply ccByAt_of_ccby
    apply List.isPrefixOf_iff_prefix.mpr
    calc "cc-by".data <+: "cc-by-sa".data := by decide
    _ <+: x := List.isPrefixOf_iff_prefix.mp hx
  have hs : ¬ s = "" := by
    intro he
    subst he
    simp [pyNormText, pyStrip, pyLower, containsSub, sufAny, List.isPrefixOf] at h
  unfold norm_license
  rw [if_neg hs]
  simp [hcc]

/-- C10 witness: the literal tag `cc-by-sa` normalizes to `cc-by`. -/
theorem claim_c10_witness : norm_license "cc-by-sa" = some "cc-by" :=
  claim_c10.1 "cc-by-sa" (by decide)

/-! ## Claim C9 — OAI-PMH: deleted records excluded, token-driven stop -/

/-- A record surviving a page's yield has a header and is not flagged
deleted. -/
lemma mem_pageYield (p : OaiPage) (r : OaiHdrRec) (h : r ∈ pageYield p) :
    r.hasHeader = true ∧ r.status ≠ some "deleted" := by
  unfold pageYield at h
  obtain ⟨-, hpred⟩ := List.mem_filter.mp h
  rw [Bool.and_eq_true] at hpred
  obtain ⟨h1, h2⟩ := hpred
  refine ⟨h1, ?_⟩
  intro he
  rw [he] at h2
  simp at h2

/-- Nothing yielded by the `ListRecords` loop is headerless or deleted. -/
lemma oai_yield_clean (script : Nat → OaiPage) :
    ∀ fuel idx r, r ∈ (oai_list_records script idx fuel).1 →
      r.hasHeader = true ∧ r.status ≠ some "deleted" := by
  intro fuel
  induction fuel with
  | zero => intro idx r hr; simp [oai_list_records] at hr
  | succ f ih =>
    intro idx r hr
    unfold oai_list_records at hr
    by_cases he : (script idx).isError
    · simp [he] at hr
    · simp only [he, Bool.false_eq_true, if_false] at hr
      by_cases ht : tokenSome (script idx).token
      · rw [if_pos ht] at hr
        rcases hpair : oai_list_records script (idx + 1) f with ⟨rest, cnt⟩
        rw [hpair] at hr
        simp only [List.mem_append] at hr
        rcases hr with hr | hr
        · exact mem_pageYield _ _ hr
        · exact ih (idx + 1) r (by rw [hpair]; exact hr)
      · rw [if_neg ht] at hr
        exact mem_pageYield _ _ hr

/-- With no error pages, the loop issues exactly `n + 1` page requests when
pages `0..n-1` carry a non-empty resumption token and page `n` does not —
whatever extra fuel is available. -/
lemma oai_requests_exact (script : Nat → OaiPage) :
    ∀ n idx extra,
    (∀ k, k ≤ n → (script (idx + k)).isError = false) →
    (∀ k, k < n → tokenSome (script (idx + k)).token = true) →
    tokenSome (script (idx + n)).token = false →
    (oai_list_records script idx (n + 1 + extra)).2 = n + 1 := by
  intro n
  induction n with
  | zero =>
    intro idx extra herr _ hstop
    have he0 : (script idx).isError = false := by simpa using herr 0 (Nat.le_refl 0)
    have hs0 : tokenSome (script idx).token = false := by simpa using hstop
    rw [show 0 + 1 + extra = extra + 1 from by omega]
    unfold oai_list_records
    simp [he0, hs0]
  | succ m ih =>
    intro idx extra herr htok hstop
    have he0 : (script idx).isError = false := by simpa using herr 0 (by omega)
    have ht0 : tokenSome (script idx).token = true := by simpa using htok 0 (by omega)
    rw [show m + 1 + 1 + extra = (m + 1 + extra) + 1 from by omega]
    unfold oai_list_records
    simp only [he0, Bool.false_eq_true, if_false, ht0, if_true]
    have hrec := ih (idx + 1) extra
      (fun k hk => by
        rw [show idx + 1 + k = idx + (k + 1) from by omega]
        exact herr (k + 1) (by omega))
      (fun k hk => by
        rw [show idx + 1 + k = idx + (k + 1) from by omega]
        exact htok (k + 1) (by omega))
      (by
        rw [show idx + 1 + m = idx + (m + 1) from by omega]
        exact hstop)
    rcases hpair : oai_list_records script (idx + 1) (m + 1 + extra) with ⟨rest, cnt⟩
    rw [hpair] at hrec
    simp only [hpair]
    simpa using hrec

/-- C9 (confirmed): in the `ListRecords` iteration every yielded record has
a header not flagged `deleted` (headerless and deleted records are
excluded), and — absent error responses — pagination stops exactly at the
first response whose resumption token is missing or empty: with pages
`0..n-1` carrying non-empty tokens and page `n` not, exactly `n + 1` pages
are requested, however much more fuel remains. -/
theorem claim_c9 :
    (∀ (script : Nat → OaiPage) fuel idx r,
        r ∈ (oai_list_records script idx fuel).1 →
        r.hasHeader = true ∧ r.status ≠ some "deleted")
  ∧ (∀ (script : Nat → OaiPage) n extra,
        (∀ k, k ≤ n → (script k).isError = false) →
        (∀ k, k < n → tokenSome (script k).token = true) →
        tokenSome (script n).token = false →
        (oai_list_records script 0 (n + 1 + extra)).2 = n + 1) := by
  constructor
  · intro script fuel idx r hr
    exact oai_yield_clean script fuel idx r hr
  · intro script n extra herr htok hstop
    exact oai_requests_exact script n 0 extra
      (fun k hk => by simpa using herr k hk)
      (fun k hk => by simpa using htok k hk)
      (by simpa using hstop)

/-! ## Claim C6 — re-running a harvest neither corrupts nor duplicates -/

lemma setF_self (fs : FS) (p : String) (v : FileVal) : setF fs p v p = some v := by
  simp [setF]

lemma setF_other (fs : FS) (p q : String) (v : FileVal) (h : q ≠ p) :
    setF fs p v q = fs q := by
  simp [setF, h]

/-- Appending distinct suffixes to one directory gives distinct paths. -/
lemma append_ne_of_ne (d : String) {a b : String} (h : a ≠ b) : d ++ a ≠ d ++ b := by
  intro he
  apply h
  apply String.ext
  have hd : d.data ++ a.data = d.data ++ b.data := congrArg String.data he
  exact List.append_cancel_left hd

/-- The four artifact paths of one DOAJ record are pairwise distinct. -/
lemma doaj_paths_ne (rec : DoajRec) :
    doajMetaPath rec ≠ doajPdfPath rec ∧ doajMetaPath rec ≠ doajSidecarPath rec
  ∧ doajMetaPath rec ≠ doajLinkPath rec ∧ doajPdfPath rec ≠ doajSidecarPath rec
  ∧ doajPdfPath rec ≠ doajLinkPath rec ∧ doajSidecarPath rec ≠ doajLinkPath rec := by
  refine ⟨?_, ?_, ?_, ?_, ?_, ?_⟩ <;> exact append_ne_of_ne _ (by decide)

/-- Any DOAJ write presupposes the license gate passed. -/
lemma doaj_allowed_of_mem (rec : DoajRec) (wl : List String) (net : Option NetEv)
    (fs : FS) (p : String) (v : FileVal)
    (h : (p, v) ∈ (doajProcess rec wl net fs).2) : doajAllowed rec.lic wl = true := by
  by_cases ha : doajAllowed rec.lic wl
  · exact ha
  · simp [doajProcess, ha] at h

/-- Metadata-step writes are exactly the metadata pair. -/
lemma doajMetaStep_writes (rec : DoajRec) (fs : FS) :
    ∀ p v, (p, v) ∈ (doajMetaStep rec fs).2 →
      p = doajMetaPath rec ∧ v = FileVal.jsonMeta := by
  unfold doajMetaStep
  split <;> intro p v h <;> simp at h <;> tauto

/-- After the metadata step the metadata path is occupied. -/
lemma doajMetaStep_occupied (rec : DoajRec) (fs : FS) :
    (doajMetaStep rec fs).1 (doajMetaPath rec) ≠ none := by
  unfold doajMetaStep
  split
  · simp [setF]
  · next h => simpa [Option.isNone_iff_eq_none] using h

/-- A present metadata file is never rewritten. -/
lemma doajMetaStep_skip (rec : DoajRec) (fs : FS)
    (h : fs (doajMetaPath rec) ≠ none) : doajMetaStep rec fs = (fs, []) := by
  unfold doajMetaStep
  rw [if_neg]
  simp [Option.isNone_iff_eq_none, h]

/-- The metadata step touches no other path. -/
lemma doajMetaStep_other (rec : DoajRec) (fs : FS) (q : String)
    (h : q ≠ doajMetaPath rec) : (doajMetaStep rec fs).1 q = fs q := by
  unfold doajMetaStep
  split <;> simp [setF_other _ _ _ _ h]

/-- PDF-step writes are the PDF pair and the sidecar pair. -/
lemma doajPdfStep_writes (rec : DoajRec) (net : Option NetEv) (fs : FS) :
    ∀ p v, (p, v) ∈ (doajPdfStep rec net fs).2 →
      (p = doajPdfPath rec ∧ ∃ n, v = FileVal.bytes n)
        ∨ (p = doajSidecarPath rec ∧ v = FileVal.jsonMeta) := by
  unfold doajPdfStep
  split <;> (try split) <;> (try split) <;> (try split) <;>
    intro p v h <;> simp at h <;> aesop

/-- A present PDF file is never downloaded again. -/
lemma doajPdfStep_skip (rec : DoajRec) (net : Option NetEv) (fs : FS)
    (h : fs (doajPdfPath rec) ≠ none) : doajPdfStep rec net fs = (fs, []) := by
  unfold doajPdfStep
  split
  · rw [if_neg]
    simp [Option.isNone_iff_eq_none, h]
  · rfl

/-- When the PDF step wrote the PDF, the PDF path ends occupied. -/
lemma doajPdfStep_occupied (rec : DoajRec) (net : Option NetEv) (fs : FS) (m : Nat)
    (h : (doajPdfPath rec, FileVal.bytes m) ∈ (doajPdfStep rec net fs).2) :
    (doajPdfStep rec net fs).1 (doajPdfPath rec) ≠ none := by
  obtain ⟨-, -, -, h4, -, -⟩ := doaj_paths_ne rec
  unfold doajPdfStep at h ⊢
  split at h <;> (try split at h) <;> (try split at h) <;> (try split at h) <;>
    simp_all [setF_other _ _ _ _ h4, setF_self]

/-- The PDF step touches only the PDF and sidecar paths. -/
lemma doajPdfStep_other (rec : DoajRec) (net : Option NetEv) (fs : FS) (q : String)
    (h1 : q ≠ doajPdfPath rec) (h2 : q ≠ doajSidecarPath rec) :
    (doajPdfStep rec net fs).1 q = fs q := by
  unfold doajPdfStep
  split <;> (try split) <;> (try split) <;> (try split) <;>
    simp [setF_other _ _ _ _ h1, setF_other _ _ _ _ h2]

/-- Link-step writes are exactly the link pair. -/
lemma doajLinkStep_writes (rec : DoajRec) (fs : FS) :
    ∀ p v, (p, v) ∈ (doajLinkStep rec fs).2 →
      p = doajLinkPath rec ∧ v = FileVal.jsonMeta := by
  unfold doajLinkStep
  split <;> intro p v h <;> simp at h <;> tauto

/-- The link step touches no other path. -/
lemma doajLinkStep_other (rec : DoajRec) (fs : FS) (q : String)
    (h : q ≠ doajLinkPath rec) : (doajLinkStep rec fs).1 q = fs q := by
  unfold doajLinkStep
  split <;> simp [setF_other _ _ _ _ h]

/-- Every DOAJ write lands on one of the record's four fixed paths. -/
lemma doaj_writes_paths (rec : DoajRec) (wl : List String) (net : Option NetEv)
    (fs : FS) :
    ∀ p v, (p, v) ∈ (doajProcess rec wl net fs).2 →
      p = doajMetaPath rec ∨ p = doajPdfPath rec ∨ p = doajSidecarPath rec
        ∨ p = doajLinkPath rec := by
  unfold doajProcess
  split
  · intro p v h; simp at h
  · intro p v h
    simp only [List.append_assoc, List.mem_append] at h
    rcases h with h | h | h
    · exact Or.inl (doajMetaStep_writes rec fs p v h).1
    · rcases doajPdfStep_writes rec net _ p v h with ⟨hp, -⟩ | ⟨hp, -⟩
      · exact Or.inr (Or.inl hp)
      · exact Or.inr (Or.inr (Or.inl hp))
    · exact Or.inr (Or.inr (Or.inr (doajLinkStep_writes rec _ p v h).1))

/-- After a pass whose gate allowed the record, the metadata path is
occupied. -/
lemma doaj_meta_after (rec : DoajRec) (wl : List String) (net : Option NetEv)
    (fs : FS) (ha : doajAllowed rec.lic wl = true) :
    (doajProcess rec wl net fs).1 (doajMetaPath rec) ≠ none := by
  obtain ⟨h1, h2, h3, -, -, -⟩ := doaj_paths_ne rec
  unfold doajProcess
  simp only [ha, Bool.not_true, Bool.false_eq_true, if_false]
  rw [doajLinkStep_other rec _ _ h3, doajPdfStep_other rec net _ _ h1 h2]
  exact doajMetaStep_occupied rec fs

/-- A pass starting with the metadata file present never writes it. -/
lemma doaj_no_meta_rewrite (rec : DoajRec) (wl : List String) (net : Option NetEv)
    (fs : FS) (hfs : fs (doajMetaPath rec) ≠ none) :
    ∀ v, (doajMetaPath rec, v) ∉ (doajProcess rec wl net fs).2 := by
  obtain ⟨h1, h2, h3, -, -, -⟩ := doaj_paths_ne rec
  intro v hmem
  unfold doajProcess at hmem
  split at hmem
  · simp at hmem
  · rw [doajMetaStep_skip rec fs hfs] at hmem
    simp only [List.append_assoc, List.mem_append] at hmem
    rcases hmem with h | h | h
    · simp at h
    · rcases doajPdfStep_writes rec net _ _ _ h with ⟨hp, -⟩ | ⟨hp, -⟩
      · exact h1 hp
      · exact h2 hp
    · exact h3 (doajLinkStep_writes rec _ _ _ h).1

/-- When a pass wrote the PDF, the PDF path ends occupied. -/
lemma doaj_pdf_after (rec : DoajRec) (wl : List String) (net : Option NetEv)
    (fs : FS) (m : Nat)
    (h : (doajPdfPath rec, FileVal.bytes m) ∈ (doajProcess rec wl net fs).2) :
    (doajProcess rec wl net fs).1 (doajPdfPath rec) ≠ none := by
  obtain ⟨h1, h2, h3, h4, h5, h6⟩ := doaj_paths_ne rec
  unfold doajProcess at h ⊢
  split at h
  · simp at h
  · next ha =>
    simp only [Bool.not_eq_eq_eq_not, Bool.not_true, Bool.not_eq_true,
      Bool.not_eq_false] at ha
    simp only [List.append_assoc, List.mem_append] at h
    simp only [ha, Bool.not_true, Bool.false_eq_true, if_false]
    rw [doajLinkStep_other rec _ _ h5]
    rcases h with h | h | h
    · exact absurd (doajMetaStep_writes rec fs _ _ h).1 (Ne.symm h1)
    · exact doajPdfStep_occupied rec net _ m h
    · exact absurd (doajLinkStep_writes rec _ _ _ h).1 h5

/-- A pass starting with the PDF file present never writes the PDF path. -/
lemma doaj_no_pdf_rewrite (rec : DoajRec) (wl : List String) (net : Option NetEv)
    (fs : FS) (hfs : fs (doajPdfPath rec) ≠ none) :
    ∀ v, (doajPdfPath rec, v) ∉ (doajProcess rec wl net fs).2 := by
  obtain ⟨h1, h2, h3, h4, h5, h6⟩ := doaj_paths_ne rec
  intro v hmem
  unfold doajProcess at hmem
  split at hmem
  · simp at hmem
  · have hskip : doajPdfStep rec net (doajMetaStep rec fs).1 = ((doajMetaStep rec fs).1, []) := by
      apply doajPdfStep_skip
      rw [doajMetaStep_other rec fs _ (Ne.symm h1)]
      exact hfs
    simp only [List.append_assoc, List.mem_append] at hmem
    rw [hskip] at hmem
    rcases hmem with h | h | h
    · exact h1 (doajMetaStep_writes rec fs _ _ h).1.symm
    · simp at h
    · exact h5 (doajLinkStep_writes rec _ _ _ h).1

/-- A path is strictly extended by appending a non-empty suffix. -/
lemma self_ne_append (s t : String) (ht : t.data ≠ []) : s ≠ s ++ t := by
  intro he
  have hd : s.data = s.data ++ t.data := congrArg String.data he
  have hl := congrArg List.length hd
  simp only [List.length_append] at hl
  have : t.data.length = 0 := by omega
  exact ht (List.eq_nil_of_length_eq_zero this)

/-- A Zenodo file's path differs from its own sidecar path. -/
lemma zenodo_out_ne_side (rec : ZenodoRec) (f : ZFile) :
    zenodoFilePath rec f ≠ zenodoSidecarPath rec f := by
  unfold zenodoSidecarPath
  exact self_ne_append _ _ (by decide)

/-- A file at `q` with positive size. -/
def POSat (fs : FS) (q : String) : Prop := ∃ v, fs q = some v ∧ 0 < fileSize v

/-- A positive-size file at the output path makes the skip test true. -/
lemma zenodoSkipB_of_pos (fs : FS) (out : String) (h : POSat fs out) :
    zenodoSkipB fs out = true := by
  obtain ⟨v, hv, hpos⟩ := h
  unfold zenodoSkipB
  rw [hv]
  simpa using hpos

/-- File-step writes: the file pair and its sidecar pair. -/
lemma zenodoFileStep_writes (rec : ZenodoRec) (oracle : ZFile → Option NetEv)
    (f : ZFile) (fs : FS) :
    ∀ p v, (p, v) ∈ (zenodoFileStep rec oracle f fs).2 →
      (p = zenodoFilePath rec f ∧ ∃ n, v = FileVal.bytes n)
        ∨ (p = zenodoSidecarPath rec f ∧ v = FileVal.jsonMeta) := by
  unfold zenodoFileStep
  split <;> (try split) <;> (try split) <;> (try split) <;>
    intro p v h <;> simp at h <;> aesop

/-- The file step touches no path other than the file and its sidecar. -/
lemma zenodoFileStep_other (rec : ZenodoRec) (oracle : ZFile → Option NetEv)
    (f : ZFile) (fs : FS) (q : String)
    (h1 : q ≠ zenodoFilePath rec f) (h2 : q ≠ zenodoSidecarPath rec f) :
    (zenodoFileStep rec oracle f fs).1 q = fs q := by
  unfold zenodoFileStep
  split <;> (try split) <;> (try split) <;> (try split) <;>
    simp [setF_other _ _ _ _ h1, setF_other _ _ _ _ h2]

/-- A file already present with positive size is skipped outright. -/
lemma zenodoFileStep_skip (rec : ZenodoRec) (oracle : ZFile → Option NetEv)
    (f : ZFile) (fs : FS) (h : POSat fs (zenodoFilePath rec f)) :
    zenodoFileStep rec oracle f fs = (fs, []) := by
  unfold zenodoFileStep
  split
  · rfl
  · rw [if_pos (zenodoSkipB_of_pos fs _ h)]

/-- Whatever the file step wrote is present with positive size afterwards. -/
lemma zenodoFileStep_present (rec : ZenodoRec) (oracle : ZFile → Option NetEv)
    (f : ZFile) (fs : FS) :
    ∀ p v, (p, v) ∈ (zenodoFileStep rec oracle f fs).2 →
      POSat (zenodoFileStep rec oracle f fs).1 p := by
  have hns := zenodo_out_ne_side rec f
  unfold zenodoFileStep
  split
  · intro p v h; simp at h
  · split
    · intro p v h; simp at h
    · split
      · split
        · intro p v h; simp at h
        · intro p v h
          simp only [List.mem_cons, List.mem_singleton, Prod.mk.injEq,
            List.not_mem_nil, or_false] at h
          rename_i x blob hdl hne
          have hpos : 0 < blob.length := by
            cases blob with
            | nil => simp at hne
            | cons a t => simp
          rcases h with ⟨hp, -⟩ | ⟨hp, -⟩ <;> subst hp
          · exact ⟨.bytes blob.length, by simp [setF, hns], hpos⟩
          · exact ⟨.jsonMeta, by simp [setF], by simp [fileSize]⟩
      · intro p v h; simp at h

/-- The file step never destroys a positive-size file. -/
lemma zenodoFileStep_pos_mono (rec : ZenodoRec) (oracle : ZFile → Option NetEv)
    (f : ZFile) (fs : FS) (q : String) (h : POSat fs q) :
    POSat (zenodoFileStep rec oracle f fs).1 q := by
  by_cases h2 : q = zenodoFilePath rec f
  · subst h2
    rw [zenodoFileStep_skip rec oracle f fs h]
    exact h
  · by_cases h1 : q = zenodoSidecarPath rec f
    · subst h1
      unfold zenodoFileStep
      split
      · exact h
      · split
        · exact h
        · split
          · split
            · exact h
            · exact ⟨.jsonMeta, by simp [setF], by simp [fileSize]⟩
          · exact h
    · unfold POSat
      rw [zenodoFileStep_other rec oracle f fs q h2 h1]
      exact h

/-- The file step writes nothing at a positive-size path that is not its
sidecar path. -/
lemma zenodoFileStep_no_rewrite (rec : ZenodoRec) (oracle : ZFile → Option NetEv)
    (f : ZFile) (fs : FS) (q : String) (hq : POSat fs q)
    (hside : q ≠ zenodoSidecarPath rec f) :
    ∀ v, (q, v) ∉ (zenodoFileStep rec oracle f fs).2 := by
  intro v hmem
  by_cases hout : q = zenodoFilePath rec f
  · subst hout
    rw [zenodoFileStep_skip rec oracle f fs hq] at hmem
    simp at hmem
  · rcases zenodoFileStep_writes rec oracle f fs q v hmem with ⟨hp, -⟩ | ⟨hp, -⟩
    · exact hout hp
    · exact hside hp

/-- Loop writes land on the files' paths, file paths carrying positive
byte sizes and sidecar paths metadata. -/
lemma zenodoFilesLoop_writes (rec : ZenodoRec) (oracle : ZFile → Option NetEv) :
    ∀ files fs p v, (p, v) ∈ (zenodoFilesLoop rec oracle files fs).2 →
      ∃ f ∈ files, (p = zenodoFilePath rec f ∧ ∃ n, v = FileVal.bytes n)
        ∨ (p = zenodoSidecarPath rec f ∧ v = FileVal.jsonMeta) := by
  intro files
  induction files with
  | nil => intro fs p v h; simp [zenodoFilesLoop] at h
  | cons f rest ih =>
    intro fs p v h
    unfold zenodoFilesLoop at h
    simp only [List.mem_append] at h
    rcases h with h | h
    · exact ⟨f, by simp, zenodoFileStep_writes rec oracle f fs p v h⟩
    · obtain ⟨g, hg, hgs⟩ := ih _ p v h
      exact ⟨g, by simp [hg], hgs⟩

/-- The loop never destroys a positive-size file. -/
lemma zenodoFilesLoop_pos_mono (rec : ZenodoRec) (oracle : ZFile → Option NetEv) :
    ∀ files fs q, POSat fs q → POSat (zenodoFilesLoop rec oracle files fs).1 q := by
  intro files
  induction files with
  | nil => intro fs q h; simpa [zenodoFilesLoop] using h
  | cons f rest ih =>
    intro fs q h
    unfold zenodoFilesLoop
    exact ih _ q (zenodoFileStep_pos_mono rec oracle f fs q h)

/-- Whatever the loop wrote is present with positive size afterwards. -/
lemma zenodoFilesLoop_present (rec : ZenodoRec) (oracle : ZFile → Option NetEv) :
    ∀ files fs p v, (p, v) ∈ (zenodoFilesLoop rec oracle files fs).2 →
      POSat (zenodoFilesLoop rec oracle files fs).1 p := by
  intro files
  induction files with
  | nil => intro fs p v h; simp [zenodoFilesLoop] at h
  | cons f rest ih =>
    intro fs p v h
    unfold zenodoFilesLoop at h ⊢
    simp only [List.mem_append] at h
    rcases h with h | h
    · exact zenodoFilesLoop_pos_mono rec oracle rest _ p
        (zenodoFileStep_present rec oracle f fs p v h)
    · exact ih _ p v h

/-- The loop writes nothing at a positive-size path that is no file's
sidecar path. -/
lemma zenodoFilesLoop_no_rewrite (rec : ZenodoRec) (oracle : ZFile → Option NetEv) :
    ∀ files fs q, POSat fs q →
      (∀ g ∈ files, q ≠ zenodoSidecarPath rec g) →
      ∀ v, (q, v) ∉ (zenodoFilesLoop rec oracle files fs).2 := by
  intro files
  induction files with
  | nil => intro fs q _ _ v h; simp [zenodoFilesLoop] at h
  | cons f rest ih =>
    intro fs q hq hside v hmem
    unfold zenodoFilesLoop at hmem
    simp only [List.mem_append] at hmem
    rcases hmem with h | h
    · exact zenodoFileStep_no_rewrite rec oracle f fs q hq
        (hside f (by simp)) v h
    · exact ih _ q (zenodoFileStep_pos_mono rec oracle f fs q hq)
        (fun g hg => hside g (by simp [hg])) v h

/-- Occupied paths stay occupied through the file step. -/
lemma zenodoFileStep_none_mono (rec : ZenodoRec) (oracle : ZFile → Option NetEv)
    (f : ZFile) (fs : FS) (q : String)
    (h : (zenodoFileStep rec oracle f fs).1 q = none) : fs q = none := by
  revert h
  unfold zenodoFileStep
  split
  · exact id
  · split
    · exact id
    · split
      · split
        · exact id
        · intro h
          by_cases h1 : q = zenodoSidecarPath rec f
          · subst h1; simp [setF] at h
          · by_cases h2 : q = zenodoFilePath rec f
            · subst h2; simp [setF, zenodo_out_ne_side rec f] at h
            · simpa [setF, h1, h2] using h
      · exact id

/-- Occupied paths stay occupied through the loop. -/
lemma zenodoFilesLoop_none_mono (rec : ZenodoRec) (oracle : ZFile → Option NetEv) :
    ∀ files fs q, (zenodoFilesLoop rec oracle files fs).1 q = none → fs q = none := by
  intro files
  induction files with
  | nil => intro fs q h; simpa [zenodoFilesLoop] using h
  | cons f rest ih =>
    intro fs q h
    unfold zenodoFilesLoop at h
    exact zenodoFileStep_none_mono rec oracle f fs q (ih _ q h)

/-- Zenodo metadata-step writes are exactly the metadata pair. -/
lemma zenodoMetaStep_writes (rec : ZenodoRec) (fs : FS) :
    ∀ p v, (p, v) ∈ (zenodoMetaStep rec fs).2 →
      p = zenodoMetaPath rec ∧ v = FileVal.jsonMeta := by
  unfold zenodoMetaStep
  split <;> intro p v h <;> simp at h <;> tauto

/-- After the Zenodo metadata step the metadata path is occupied. -/
lemma zenodoMetaStep_occupied (rec : ZenodoRec) (fs : FS) :
    (zenodoMetaStep rec fs).1 (zenodoMetaPath rec) ≠ none := by
  unfold zenodoMetaStep
  split
  · simp [setF]
  · next h => simpa [Option.isNone_iff_eq_none] using h

/-- A present Zenodo metadata file is never rewritten. -/
lemma zenodoMetaStep_skip (rec : ZenodoRec) (fs : FS)
    (h : fs (zenodoMetaPath rec) ≠ none) : zenodoMetaStep rec fs = (fs, []) := by
  unfold zenodoMetaStep
  rw [if_neg]
  simp [Option.isNone_iff_eq_none, h]

/-- The Zenodo metadata step touches no other path. -/
lemma zenodoMetaStep_other (rec : ZenodoRec) (fs : FS) (q : String)
    (h : q ≠ zenodoMetaPath rec) : (zenodoMetaStep rec fs).1 q = fs q := by
  unfold zenodoMetaStep
  split <;> simp [setF_other _ _ _ _ h]

/-- Any Zenodo write presupposes the license gate passed. -/
lemma zenodo_allowed_of_mem (rec : ZenodoRec) (wl : List String)
    (oracle : ZFile → Option NetEv) (fs : FS) (p : String) (v : FileVal)
    (h : (p, v) ∈ (zenodoProcess rec wl oracle fs).2) :
    zenodoAllowed rec.lic wl = true := by
  by_cases ha : zenodoAllowed rec.lic wl
  · exact ha
  · simp [zenodoProcess, ha] at h

/-- C6 (confirmed): re-running a harvest over the same records leaves the
artifact tree unduplicated and uncorrupted.  DOAJ: every write lands on one
of the record's four fixed paths (deterministic in the record id, so a
second pass can never create a second path), and a metadata or PDF file
written by one pass is never written again by a following pass.  Zenodo:
every write lands on the record's metadata path or one of its files'
output/sidecar paths; provided the record's file names do not collide with
the metadata/sidecar naming scheme, the metadata file and any downloaded
file of the first pass are not rewritten by the second (the existence /
positive-size checks skip them).  arXiv: `fetch_pdf_with_retries` returns
`True` immediately — zero requests, zero writes — when the output PDF
already exists with more than 1024 bytes. -/
theorem claim_c6 :
    (∀ rec wl net fs p v, (p, v) ∈ (doajProcess rec wl net fs).2 →
        p = doajMetaPath rec ∨ p = doajPdfPath rec ∨ p = doajSidecarPath rec
          ∨ p = doajLinkPath rec)
  ∧ (∀ rec wl net net' fs v,
        (doajMetaPath rec, FileVal.jsonMeta) ∈ (doajProcess rec wl net fs).2 →
        (doajMetaPath rec, v) ∉
          (doajProcess rec wl net' (doajProcess rec wl net fs).1).2)
  ∧ (∀ rec wl net net' fs m v,
        (doajPdfPath rec, FileVal.bytes m) ∈ (doajProcess rec wl net fs).2 →
        (doajPdfPath rec, v) ∉
          (doajProcess rec wl net' (doajProcess rec wl net fs).1).2)
  ∧ (∀ rec wl oracle fs p v, (p, v) ∈ (zenodoProcess rec wl oracle fs).2 →
        p = zenodoMetaPath rec ∨ ∃ f ∈ rec.files,
          p = zenodoFilePath rec f ∨ p = zenodoSidecarPath rec f)
  ∧ (∀ rec wl oracle oracle' fs v,
        (∀ f ∈ rec.files, zenodoMetaPath rec ≠ zenodoFilePath rec f
          ∧ zenodoMetaPath rec ≠ zenodoSidecarPath rec f) →
        (zenodoMetaPath rec, FileVal.jsonMeta) ∈ (zenodoProcess rec wl oracle fs).2 →
        (zenodoMetaPath rec, v) ∉
          (zenodoProcess rec wl oracle' (zenodoProcess rec wl oracle fs).1).2)
  ∧ (∀ rec wl oracle oracle' fs p m v,
        (∀ f ∈ rec.files, zenodoMetaPath rec ≠ zenodoFilePath rec f) →
        (∀ f g, f ∈ rec.files → g ∈ rec.files →
          zenodoFilePath rec f ≠ zenodoSidecarPath rec g) →
        (p, FileVal.bytes m) ∈ (zenodoProcess rec wl oracle fs).2 →
        (p, v) ∉ (zenodoProcess rec wl oracle' (zenodoProcess rec wl oracle fs).1).2)
  ∧ (∀ (fs : FS) p script maxR v, fs p = some v → 1024 < fileSize v →
        fetch_pdf_with_retries fs p script maxR = (fs, true, 0)) := by
  refine ⟨?_, ?_, ?_, ?_, ?_, ?_, ?_⟩
  · exact fun rec wl net fs => doaj_writes_paths rec wl net fs
  · intro rec wl net net' fs v hmem1 hmem2
    have ha := doaj_allowed_of_mem rec wl net fs _ _ hmem1
    exact doaj_no_meta_rewrite rec wl net' _ (doaj_meta_after rec wl net fs ha) v hmem2
  · intro rec wl net net' fs m v hmem1 hmem2
    exact doaj_no_pdf_rewrite rec wl net' _ (doaj_pdf_after rec wl net fs m hmem1) v hmem2
  · intro rec wl oracle fs p v hmem
    have ha := zenodo_allowed_of_mem rec wl oracle fs p v hmem
    unfold zenodoProcess at hmem
    simp only [ha, Bool.not_true, Bool.false_eq_true, if_false,
      List.mem_append] at hmem
    rcases hmem with h | h
    · exact Or.inl (zenodoMetaStep_writes rec fs p v h).1
    · obtain ⟨f, hf, hc⟩ := zenodoFilesLoop_writes rec oracle rec.files _ p v h
      rcases hc with ⟨hp, -⟩ | ⟨hp, -⟩
      · exact Or.inr ⟨f, hf, Or.inl hp⟩
      · exact Or.inr ⟨f, hf, Or.inr hp⟩
  · intro rec wl oracle oracle' fs v hH hmem1 hmem2
    have ha := zenodo_allowed_of_mem rec wl oracle fs _ _ hmem1
    have hocc : (zenodoFilesLoop rec oracle rec.files (zenodoMetaStep rec fs).1).1
        (zenodoMetaPath rec) ≠ none := fun hn =>
      zenodoMetaStep_occupied rec fs
        (zenodoFilesLoop_none_mono rec oracle rec.files _ _ hn)
    unfold zenodoProcess at hmem2
    simp only [ha, Bool.not_true, Bool.false_eq_true, if_false,
      List.mem_append] at hmem2
    rcases hmem2 with h | h
    · rw [zenodoMetaStep_skip rec _ hocc] at h
      simp at h
    · obtain ⟨f, hf, hc⟩ := zenodoFilesLoop_writes rec oracle' rec.files _ _ _ h
      rcases hc with ⟨hp, -⟩ | ⟨hp, -⟩
      · exact (hH f hf).1 hp
      · exact (hH f hf).2 hp
  · intro rec wl oracle oracle' fs p m v hH1 hH2 hmem1 hmem2
    have ha := zenodo_allowed_of_mem rec wl oracle fs _ _ hmem1
    unfold zenodoProcess at hmem1
    simp only [ha, Bool.not_true, Bool.false_eq_true, if_false,
      List.mem_append] at hmem1
    rcases hmem1 with h1 | h1
    · have := (zenodoMetaStep_writes rec fs _ _ h1).2
      simp at this
    · obtain ⟨f, hf, hc⟩ := zenodoFilesLoop_writes rec oracle rec.files _ _ _ h1
      rcases hc with ⟨hp, -⟩ | ⟨-, hv⟩
      · have hpos : POSat
            (zenodoFilesLoop rec oracle rec.files (zenodoMetaStep rec fs).1).1 p :=
          zenodoFilesLoop_present rec oracle rec.files _ p _ h1
        have hpm : p ≠ zenodoMetaPath rec := by
          rw [hp]; exact fun he => hH1 f hf he.symm
        unfold zenodoProcess at hmem2
        simp only [ha, Bool.not_true, Bool.false_eq_true, if_false,
          List.mem_append] at hmem2
        rcases hmem2 with h2 | h2
        · exact hpm (zenodoMetaStep_writes rec _ _ _ h2).1
        · refine zenodoFilesLoop_no_rewrite rec oracle' rec.files _ p ?_ ?_ v h2
          · unfold POSat
            rw [zenodoMetaStep_other rec _ p hpm]
            exact hpos
          · intro g hg
            rw [hp]
            exact hH2 f g hf hg
      · simp at hv
  · intro fs p script maxR v hv hsize
    unfold fetch_pdf_with_retries
    rw [hv]
    simp [hsize]

end OpenStrength
